import Mathlib

/-!
Verification of the QR-code canvas module of the qrcode-rust repository.

The definitions below are a shallow embedding of `src/canvas.rs` (together
with the width constants generated in `src/spec.rs`).  Coordinates are
modelled as `Int` (the source uses `i16`; no arithmetic here can overflow
an `i16` on the domains the theorems quantify over).  The packed module
storage of the source is modelled as a total function from normalized
coordinates to modules: `Canvas.get` and `Canvas.put` perform exactly the
negative-coordinate wrapping of `Canvas::coords_to_index`.  Rust `%` on
`i16` is truncated; it is embedded as `Int.tmod`, and Rust `/` as
`Int.tdiv`.
-/

set_option maxHeartbeats 1000000
set_option maxRecDepth 8000

namespace QR

/-- The color of a module, from `types.rs` (`Color`). -/
inductive Color where
  | dark : Color
  | light : Color
deriving DecidableEq, Repr

/-- Modelled from the spec: `Color` has a logical complement operation
(the `Not` instance of `types.rs`, which is not part of the sources under
review). -/
def Color.invert : Color → Color
  | Color.dark => Color.light
  | Color.light => Color.dark

/-- `Module` from `canvas.rs`: a color tagged by whether it belongs to a
functional pattern (masked) or is still open data (unmasked). -/
inductive Module where
  | masked : Color → Module
  | unmasked : Color → Module
deriving DecidableEq, Repr

/-- `impl From<Module> for Color` in `canvas.rs`. -/
def Module.color : Module → Color
  | Module.masked c => c
  | Module.unmasked c => c

/-- `Module::is_dark` in `canvas.rs`. -/
def Module.isDark (m : Module) : Bool := m.color = Color.dark

/-- `Module::EMPTY` in `canvas.rs`. -/
def Module.EMPTY : Module := Module.unmasked Color.light

/-- Whether a module is masked (matches `if let Module::Masked(_)` tests in
the source). -/
def Module.isMasked : Module → Bool
  | Module.masked _ => true
  | Module.unmasked _ => false

/-- `Module::mask` in `canvas.rs`. -/
def Module.mask : Module → Bool → Color
  | Module.unmasked c, true => c.invert
  | Module.unmasked c, false => c
  | Module.masked c, _ => c

/-- `Version` from `types.rs` (declaration only; the canvas code matches on
it). -/
inductive Version where
  | normal : Int → Version
  | micro : Int → Version
deriving DecidableEq, Repr

/-- The symbol width.  For normal versions this is the generated constant
`WIDTH: i16 = version_num * 4 + 17` of `spec.rs`.  Modelled from the spec
for micro versions: width of Micro(v) is `2 * v + 9`. -/
def Version.width : Version → Int
  | Version.normal n => 4 * n + 17
  | Version.micro n => 2 * n + 9

/-- The versions the repository implements: Normal 1..40 and Micro 1..4. -/
def Version.valid : Version → Prop
  | Version.normal n => 1 ≤ n ∧ n ≤ 40
  | Version.micro n => 1 ≤ n ∧ n ≤ 4

instance : DecidablePred Version.valid := fun v => by
  cases v <;> simp [Version.valid] <;> infer_instance

/-- `EcLevel` from `types.rs` (declaration only). -/
inductive EcLevel where
  | L : EcLevel
  | M : EcLevel
  | Q : EcLevel
  | H : EcLevel
deriving DecidableEq, Repr

/-- Modelled from the spec: the numeric discriminants of `EcLevel`
(internal ordering L=0, M=1, Q=2, H=3), used by the format-info index
computation `(V::EC_LEVEL as usize) ^ 1`. -/
def EcLevel.code : EcLevel → Nat
  | EcLevel.L => 0
  | EcLevel.M => 1
  | EcLevel.Q => 2
  | EcLevel.H => 3

/-- `MaskPattern` from `canvas.rs`. -/
inductive MaskPattern where
  | checkerboard : MaskPattern
  | horizontalLines : MaskPattern
  | verticalLines : MaskPattern
  | diagonalLines : MaskPattern
  | largeCheckerboard : MaskPattern
  | fields : MaskPattern
  | diamonds : MaskPattern
  | meadow : MaskPattern
deriving DecidableEq, Repr

/-- The numeric discriminants of `MaskPattern` in `canvas.rs`. -/
def MaskPattern.code : MaskPattern → Nat
  | MaskPattern.checkerboard => 0
  | MaskPattern.horizontalLines => 1
  | MaskPattern.verticalLines => 2
  | MaskPattern.diagonalLines => 3
  | MaskPattern.largeCheckerboard => 4
  | MaskPattern.fields => 5
  | MaskPattern.diamonds => 6
  | MaskPattern.meadow => 7

/-- A canvas is a total assignment of modules to (already normalized)
coordinates; `Canvas::new` fills everything with `Module::EMPTY`
(a zeroed packed buffer decodes to `Unmasked(Light)`). -/
def Canvas : Type := Int → Int → Module

/-- The coordinate normalization of `Canvas::coords_to_index`: negative
coordinates wrap by adding the width once. -/
def normc (w x : Int) : Int := if x < 0 then x + w else x

/-- `Canvas::get`. -/
def Canvas.get (c : Canvas) (w x y : Int) : Module := c (normc w x) (normc w y)

/-- `Canvas::put`: stores `Module::Masked(color)` at the normalized
coordinates. -/
def Canvas.put (c : Canvas) (w x y : Int) (col : Color) : Canvas :=
  fun a b => if a = normc w x ∧ b = normc w y then Module.masked col else c a b

/-- `Canvas::put_unmasked`: stores `Module::Unmasked(color)`. -/
def Canvas.putUnmasked (c : Canvas) (w x y : Int) (col : Color) : Canvas :=
  fun a b => if a = normc w x ∧ b = normc w y then Module.unmasked col else c a b

/-- `Canvas::new`. -/
def Canvas.empty : Canvas := fun _ _ => Module.unmasked Color.light

/-- A single `put` instruction recorded by a drawing loop. -/
structure Instr where
  x : Int
  y : Int
  color : Color
deriving DecidableEq, Repr

/-- Running a straight-line sequence of `put` calls. -/
def Canvas.putList (c : Canvas) (w : Int) (l : List Instr) : Canvas :=
  l.foldl (fun c i => c.put w i.x i.y i.color) c

/-- The inclusive integer range `a..=b` of a Rust `for` loop. -/
def intRange (a b : Int) : List Int :=
  (List.range (b + 1 - a).toNat).map (fun k => a + Int.ofNat k)

/-- The color plotted by `Canvas::draw_finder_pattern_at` at offset
`(i, j)` from the center. -/
def finderColor (i j : Int) : Color :=
  if i = 4 ∨ j = 4 ∨ i = -4 ∨ j = -4 then Color.light
  else if i = 3 ∨ j = 3 ∨ i = -3 ∨ j = -3 then Color.dark
  else if i = 2 ∨ j = 2 ∨ i = -2 ∨ j = -2 then Color.light
  else Color.dark

/-- The put sequence of `Canvas::draw_finder_pattern_at(x, y)`. -/
def finderInstrs (x y : Int) : List Instr :=
  let dxl : Int := if 0 ≤ x then -3 else -4
  let dxr : Int := if 0 ≤ x then 4 else 3
  let dyt : Int := if 0 ≤ y then -3 else -4
  let dyb : Int := if 0 ≤ y then 4 else 3
  (intRange dyt dyb).flatMap fun j =>
    (intRange dxl dxr).map fun i => Instr.mk (x + i) (y + j) (finderColor i j)

/-- `Canvas::draw_finder_patterns`. -/
def drawFinderPatterns (ver : Version) (w : Int) (c : Canvas) : Canvas :=
  let c1 := c.putList w (finderInstrs 3 3)
  match ver with
  | Version.micro _ => c1
  | Version.normal _ =>
      (c1.putList w (finderInstrs (-4) 3)).putList w (finderInstrs 3 (-4))

/-- The color plotted by `Canvas::draw_alignment_pattern_at` at offset
`(i, j)` from the center. -/
def alignColor (i j : Int) : Color :=
  if i = 2 ∨ j = 2 ∨ i = -2 ∨ j = -2 ∨ (i = 0 ∧ j = 0) then Color.dark
  else Color.light

/-- The put sequence of the drawing loop of
`Canvas::draw_alignment_pattern_at(x, y)`. -/
def alignInstrs (x y : Int) : List Instr :=
  (intRange (-2) 2).flatMap fun j =>
    (intRange (-2) 2).map fun i => Instr.mk (x + i) (y + j) (alignColor i j)

/-- `Canvas::draw_alignment_pattern_at`: skips entirely when the pivot
module is already masked. -/
def drawAlignmentPatternAt (c : Canvas) (w x y : Int) : Canvas :=
  if (c.get w x y).isMasked then c else c.putList w (alignInstrs x y)

/-- `ALIGNMENT_PATTERN_POSITIONS` from `canvas.rs` (34 entries, indexed by
version − 7). -/
def alignmentPatternPositions : List (List Int) :=
  [[6, 22, 38],
   [6, 24, 42],
   [6, 26, 46],
   [6, 28, 50],
   [6, 30, 54],
   [6, 32, 58],
   [6, 34, 62],
   [6, 26, 46, 66],
   [6, 26, 48, 70],
   [6, 26, 50, 74],
   [6, 30, 54, 78],
   [6, 30, 56, 82],
   [6, 30, 58, 86],
   [6, 34, 62, 90],
   [6, 28, 50, 72, 94],
   [6, 26, 50, 74, 98],
   [6, 30, 54, 78, 102],
   [6, 28, 54, 80, 106],
   [6, 32, 58, 84, 110],
   [6, 30, 58, 86, 114],
   [6, 34, 62, 90, 118],
   [6, 26, 50, 74, 98, 122],
   [6, 30, 54, 78, 102, 126],
   [6, 26, 52, 78, 104, 130],
   [6, 30, 56, 82, 108, 134],
   [6, 34, 60, 86, 112, 138],
   [6, 30, 58, 86, 114, 142],
   [6, 34, 62, 90, 118, 146],
   [6, 30, 54, 78, 102, 126, 150],
   [6, 24, 50, 76, 102, 128, 154],
   [6, 28, 54, 80, 106, 132, 158],
   [6, 32, 58, 84, 110, 136, 162],
   [6, 26, 54, 82, 110, 138, 166],
   [6, 30, 58, 86, 114, 142, 170]]

/-- `Canvas::draw_alignment_patterns`. -/
def drawAlignmentPatterns (ver : Version) (w : Int) (c : Canvas) : Canvas :=
  match ver with
  | Version.micro _ => c
  | Version.normal a =>
      if a = 1 then c
      else if 2 ≤ a ∧ a ≤ 6 then drawAlignmentPatternAt c w (-7) (-7)
      else
        let ps := alignmentPatternPositions.getD (a - 7).toNat []
        ps.foldl (fun c x => ps.foldl (fun c y => drawAlignmentPatternAt c w x y) c) c

/-- The put sequence of `Canvas::draw_line` (the line is horizontal when
`y1 = y2`, else vertical; even coordinates get `ce`, odd ones `co`). -/
def lineInstrs (x1 y1 x2 y2 : Int) (ce co : Color) : List Instr :=
  if y1 = y2 then
    (intRange x1 x2).map fun x => Instr.mk x y1 (if x.tmod 2 = 0 then ce else co)
  else
    (intRange y1 y2).map fun y => Instr.mk x1 y (if y.tmod 2 = 0 then ce else co)

/-- `Canvas::draw_timing_patterns`. -/
def drawTimingPatterns (ver : Version) (w : Int) (c : Canvas) : Canvas :=
  match ver with
  | Version.micro _ =>
      (c.putList w (lineInstrs 8 0 (w - 1) 0 Color.dark Color.light)).putList w
        (lineInstrs 0 8 0 (w - 1) Color.dark Color.light)
  | Version.normal _ =>
      (c.putList w (lineInstrs 8 6 (w - 9) 6 Color.dark Color.light)).putList w
        (lineInstrs 6 8 6 (w - 9) Color.dark Color.light)

/-- The put sequence of `Canvas::draw_number`: the bit under the walking
`mask` selects `on` or `off`; the mask starts at `2 ^ (bits − 1)` and is
halved after every coordinate. -/
def drawNumberInstrs (number : Nat) (mask : Nat) (onC offC : Color) :
    List (Int × Int) → List Instr
  | [] => []
  | (x, y) :: rest =>
      Instr.mk x y (if number &&& mask = 0 then offC else onC) ::
        drawNumberInstrs number (mask / 2) onC offC rest

/-- `FORMAT_INFO_COORDS_QR_MAIN` from `canvas.rs`. -/
def formatInfoCoordsQrMain : List (Int × Int) :=
  [(0, 8), (1, 8), (2, 8), (3, 8), (4, 8), (5, 8), (7, 8), (8, 8), (8, 7),
   (8, 5), (8, 4), (8, 3), (8, 2), (8, 1), (8, 0)]

/-- `FORMAT_INFO_COORDS_QR_SIDE` from `canvas.rs`. -/
def formatInfoCoordsQrSide : List (Int × Int) :=
  [(8, -1), (8, -2), (8, -3), (8, -4), (8, -5), (8, -6), (8, -7), (-8, 8),
   (-7, 8), (-6, 8), (-5, 8), (-4, 8), (-3, 8), (-2, 8), (-1, 8)]

/-- `FORMAT_INFO_COORDS_MICRO_QR` from `canvas.rs`. -/
def formatInfoCoordsMicroQr : List (Int × Int) :=
  [(1, 8), (2, 8), (3, 8), (4, 8), (5, 8), (6, 8), (7, 8), (8, 8), (8, 7),
   (8, 6), (8, 5), (8, 4), (8, 3), (8, 2), (8, 1)]

/-- `VERSION_INFO_COORDS_BL` from `canvas.rs`. -/
def versionInfoCoordsBL : List (Int × Int) :=
  [(5, -9), (5, -10), (5, -11), (4, -9), (4, -10), (4, -11), (3, -9),
   (3, -10), (3, -11), (2, -9), (2, -10), (2, -11), (1, -9), (1, -10),
   (1, -11), (0, -9), (0, -10), (0, -11)]

/-- `VERSION_INFO_COORDS_TR` from `canvas.rs`. -/
def versionInfoCoordsTR : List (Int × Int) :=
  [(-9, 5), (-10, 5), (-11, 5), (-9, 4), (-10, 4), (-11, 4), (-9, 3),
   (-10, 3), (-11, 3), (-9, 2), (-10, 2), (-11, 2), (-9, 1), (-10, 1),
   (-11, 1), (-9, 0), (-10, 0), (-11, 0)]

/-- `VERSION_INFOS` from `canvas.rs`. -/
def versionInfos : List Nat :=
  [0x07c94, 0x085bc, 0x09a99, 0x0a4d3, 0x0bbf6, 0x0c762, 0x0d847, 0x0e60d,
   0x0f928, 0x10b78, 0x1145d, 0x12a17, 0x13532, 0x149a6, 0x15683, 0x168c9,
   0x177ec, 0x18ec4, 0x191e1, 0x1afab, 0x1b08e, 0x1cc1a, 0x1d33f, 0x1ed75,
   0x1f250, 0x209d5, 0x216f0, 0x228ba, 0x2379f, 0x24b0b, 0x2542e, 0x26a64,
   0x27541, 0x28c69]

/-- `FORMAT_INFOS_QR` from `canvas.rs`. -/
def formatInfosQr : List Nat :=
  [0x5412, 0x5125, 0x5e7c, 0x5b4b, 0x45f9, 0x40ce, 0x4f97, 0x4aa0, 0x77c4,
   0x72f3, 0x7daa, 0x789d, 0x662f, 0x6318, 0x6c41, 0x6976, 0x1689, 0x13be,
   0x1ce7, 0x19d0, 0x0762, 0x0255, 0x0d0c, 0x083b, 0x355f, 0x3068, 0x3f31,
   0x3a06, 0x24b4, 0x2183, 0x2eda, 0x2bed]

/-- `FORMAT_INFOS_MICRO_QR` from `canvas.rs`. -/
def formatInfosMicroQr : List Nat :=
  [0x4445, 0x4172, 0x4e2b, 0x4b1c, 0x55ae, 0x5099, 0x5fc0, 0x5af7, 0x6793,
   0x62a4, 0x6dfd, 0x68ca, 0x7678, 0x734f, 0x7c16, 0x7921, 0x06de, 0x03e9,
   0x0cb0, 0x0987, 0x1735, 0x1202, 0x1d5b, 0x186c, 0x2508, 0x203f, 0x2f66,
   0x2a51, 0x34e3, 0x31d4, 0x3e8d, 0x3bba]

/-- `Canvas::draw_format_info_patterns_with_number` (15 bits, so the mask
starts at `2 ^ 14 = 16384`). -/
def drawFormatInfoPatternsWithNumber (ver : Version) (w : Int) (fi : Nat)
    (c : Canvas) : Canvas :=
  match ver with
  | Version.micro _ =>
      c.putList w (drawNumberInstrs fi 16384 Color.dark Color.light formatInfoCoordsMicroQr)
  | Version.normal _ =>
      ((c.putList w
            (drawNumberInstrs fi 16384 Color.dark Color.light formatInfoCoordsQrMain)).putList
          w (drawNumberInstrs fi 16384 Color.dark Color.light formatInfoCoordsQrSide)).put
        w 8 (-8) Color.dark

/-- `Canvas::draw_reserved_format_info_patterns`. -/
def drawReservedFormatInfoPatterns (ver : Version) (w : Int) (c : Canvas) : Canvas :=
  drawFormatInfoPatternsWithNumber ver w 0 c

/-- `Canvas::draw_version_info_patterns` (18 bits, so the mask starts at
`2 ^ 17 = 131072`). -/
def drawVersionInfoPatterns (ver : Version) (w : Int) (c : Canvas) : Canvas :=
  match ver with
  | Version.micro _ => c
  | Version.normal a =>
      if a ≤ 6 then c
      else
        let vi := versionInfos.getD (a - 7).toNat 0
        (c.putList w (drawNumberInstrs vi 131072 Color.dark Color.light versionInfoCoordsBL)).putList
          w (drawNumberInstrs vi 131072 Color.dark Color.light versionInfoCoordsTR)

/-- `Canvas::draw_all_functional_patterns`. -/
def drawAllFunctionalPatterns (ver : Version) (w : Int) (c : Canvas) : Canvas :=
  drawVersionInfoPatterns ver w
    (drawTimingPatterns ver w
      (drawReservedFormatInfoPatterns ver w
        (drawAlignmentPatterns ver w
          (drawFinderPatterns ver w c))))

/-- `is_functional` from `canvas.rs`. -/
def isFunctional (ver : Version) (w x y : Int) : Bool :=
  let x := if x < 0 then x + w else x
  let y := if y < 0 then y + w else y
  match ver with
  | Version.micro _ => decide (x = 0 ∨ y = 0 ∨ (x < 9 ∧ y < 9))
  | Version.normal a =>
      if x = 6 ∨ y = 6 ∨ (x < 9 ∧ y < 9) ∨ (x < 9 ∧ w - 8 ≤ y) ∨ (w - 8 ≤ x ∧ y < 9) then
        true
      else if a = 1 then false
      else if 2 ≤ a ∧ a ≤ 6 then
        decide ((w - 7 - x).natAbs ≤ 2 ∧ (w - 7 - y).natAbs ≤ 2)
      else
        let ps := alignmentPatternPositions.getD (a - 7).toNat []
        let last := ps.length - 1
        ps.enum.any fun p =>
          ps.enum.any fun q =>
            if (p.1 = 0 ∧ (q.1 = 0 ∨ q.1 = last)) ∨ (p.1 = last ∧ q.1 = 0) then false
            else decide ((p.2 - x).natAbs ≤ 2 ∧ (q.2 - y).natAbs ≤ 2)

/-- The state of `DataModuleIter` in `canvas.rs`. -/
structure DMIter where
  x : Int
  y : Int
  width : Int
  tpc : Int
deriving DecidableEq, Repr

/-- `DataModuleIter::new`. -/
def DMIter.new (ver : Version) : DMIter :=
  { x := ver.width - 1
    y := ver.width - 1
    width := ver.width
    tpc :=
      match ver with
      | Version.micro _ => 0
      | Version.normal _ => 6 }

/-- The adjusted reference column of `DataModuleIter::next`. -/
def DMIter.adjCol (s : DMIter) : Int := if s.x ≤ s.tpc then s.x + 1 else s.x

/-- `DataModuleIter::next` (`Iterator` impl in `canvas.rs`). -/
def DMIter.next (s : DMIter) : Option ((Int × Int) × DMIter) :=
  if s.adjCol ≤ 0 then none
  else
    let res := (s.x, s.y)
    let ct := (s.width - s.adjCol).tmod 4
    let s2 :=
      if ct = 2 ∧ 0 < s.y then { s with x := s.x + 1, y := s.y - 1 }
      else if ct = 0 ∧ s.y < s.width - 1 then { s with x := s.x + 1, y := s.y + 1 }
      else if (ct = 0 ∨ ct = 2) ∧ s.x = s.tpc + 1 then { s with x := s.x - 2 }
      else { s with x := s.x - 1 }
    some (res, s2)

/-- Running the iterator for at most `fuel` steps, collecting the emitted
coordinate pairs. -/
def DMIter.run : Nat → DMIter → List (Int × Int)
  | 0, _ => []
  | fuel + 1, s =>
      match s.next with
      | none => []
      | some (p, s2) => p :: DMIter.run fuel s2

/-- Running the iterator to exhaustion: `width * width` steps of fuel are
more than the iterator can ever emit, so the run below ends at the first
`None` of `next`. -/
def DMIter.runAll (ver : Version) : List (Int × Int) :=
  DMIter.run (ver.width * ver.width).toNat (DMIter.new ver)

/-- The bits contributed by one codeword in `Canvas::draw_codewords`: bit
indices from 7 down to `bitsEnd`, most significant first. -/
def byteBits (b : Nat) (bitsEnd : Nat) : List Bool :=
  (List.range (8 - bitsEnd)).map fun t => b.testBit (7 - t)

/-- The bit stream of a codeword slice in `Canvas::draw_codewords`: every
byte contributes bits 7..0, except that when `isHalfAtEnd` is set the byte
at index `length − 1` contributes only bits 7..4. -/
def codewordBits (codewords : List Nat) (isHalfAtEnd : Bool) : List Bool :=
  let lastWord := if isHalfAtEnd then codewords.length - 1 else codewords.length
  (codewords.enum.map fun p => byteBits p.2 (if p.1 = lastWord then 4 else 0)).flatten

/-- The coordinate scan of the inner `while let` loop of
`Canvas::draw_codewords`: pop coordinates until one holds an unmasked
module, returning it together with the unconsumed rest. -/
def findUnmasked (w : Int) (c : Canvas) : List (Int × Int) → Option ((Int × Int) × List (Int × Int))
  | [] => none
  | xy :: rest =>
      if (c.get w xy.1 xy.2).isMasked then findUnmasked w c rest
      else some (xy, rest)

/-- The bit-placement loop of `Canvas::draw_codewords`: writes each bit as
an unmasked module at the next unmasked coordinate of the walk; when the
coordinate iterator is exhausted the whole call returns (remaining bits are
dropped). -/
def drawBits (w : Int) : Canvas → List (Int × Int) → List Bool → Canvas × List (Int × Int)
  | c, coords, [] => (c, coords)
  | c, coords, b :: bs =>
      match findUnmasked w c coords with
      | none => (c, [])
      | some (xy, rest) =>
          drawBits w (c.putUnmasked w xy.1 xy.2 (if b then Color.dark else Color.light)) rest bs

/-- `Canvas::draw_codewords`. -/
def drawCodewords (w : Int) (c : Canvas) (codewords : List Nat) (isHalfAtEnd : Bool)
    (coords : List (Int × Int)) : Canvas × List (Int × Int) :=
  drawBits w c coords (codewordBits codewords isHalfAtEnd)

/-- `Canvas::draw_data`. -/
def drawData (ver : Version) (ec : EcLevel) (w : Int) (c : Canvas) (data ecw : List Nat) :
    Canvas :=
  let isHalfAtEnd :=
    match ver, ec with
    | Version.micro 1, EcLevel.L => true
    | Version.micro 3, EcLevel.M => true
    | _, _ => false
  let r1 := drawCodewords w c data isHalfAtEnd (DMIter.runAll ver)
  (drawCodewords w r1.1 ecw false r1.2).1

/-- The mask predicates of `mod mask_functions` in `canvas.rs`
(`get_mask_function`). -/
def maskFunction : MaskPattern → Int → Int → Bool
  | MaskPattern.checkerboard, x, y => (x + y).tmod 2 = 0
  | MaskPattern.horizontalLines, _, y => y.tmod 2 = 0
  | MaskPattern.verticalLines, x, _ => x.tmod 3 = 0
  | MaskPattern.diagonalLines, x, y => (x + y).tmod 3 = 0
  | MaskPattern.largeCheckerboard, x, y => ((y.tdiv 2) + (x.tdiv 3)).tmod 2 = 0
  | MaskPattern.fields, x, y => (x * y).tmod 2 + (x * y).tmod 3 = 0
  | MaskPattern.diamonds, x, y => ((x * y).tmod 2 + (x * y).tmod 3).tmod 2 = 0
  | MaskPattern.meadow, x, y => ((x + y).tmod 2 + (x * y).tmod 3).tmod 2 = 0

/-- The nested `for x { for y { .. } }` coordinate enumeration of
`Canvas::apply_mask`. -/
def maskCoords (w : Int) : List (Int × Int) :=
  (intRange 0 (w - 1)).flatMap fun x => (intRange 0 (w - 1)).map fun y => (x, y)

/-- The masking loop of `Canvas::apply_mask`: every module in range is
re-stored with `put` (hence as `Masked`) at its `Module::mask`-ed color. -/
def applyMaskLoop (c : Canvas) (w : Int) (f : Int → Int → Bool) : Canvas :=
  (maskCoords w).foldl (fun c xy => c.put w xy.1 xy.2 ((c.get w xy.1 xy.2).mask (f xy.1 xy.2))) c

/-- The Micro QR pattern renumbering of `Canvas::draw_format_info_patterns`;
`none` models the `panic!` for patterns a Micro symbol does not support. -/
def microPatternNumber : MaskPattern → Option Nat
  | MaskPattern.horizontalLines => some 0
  | MaskPattern.largeCheckerboard => some 1
  | MaskPattern.diamonds => some 2
  | MaskPattern.meadow => some 3
  | _ => none

/-- The Micro QR symbol numbering of `Canvas::draw_format_info_patterns`;
`none` models the `panic!` for unsupported (version, EC level) pairs. -/
def microSymbolNumber (a : Int) (ec : EcLevel) : Option Nat :=
  match a, ec with
  | 1, EcLevel.L => some 0
  | 2, EcLevel.L => some 1
  | 2, EcLevel.M => some 2
  | 3, EcLevel.L => some 3
  | 3, EcLevel.M => some 4
  | 4, EcLevel.L => some 5
  | 4, EcLevel.M => some 6
  | 4, EcLevel.Q => some 7
  | _, _ => none

/-- The format word selected by `Canvas::draw_format_info_patterns`;
`none` models a `panic!` (only reachable on Micro versions). -/
def formatInfoNumber (ver : Version) (ec : EcLevel) (p : MaskPattern) : Option Nat :=
  match ver with
  | Version.normal _ => some (formatInfosQr.getD ((ec.code ^^^ 1) <<< 3 ||| p.code) 0)
  | Version.micro a =>
      (microPatternNumber p).bind fun mp =>
        (microSymbolNumber a ec).map fun sn => formatInfosMicroQr.getD (sn <<< 2 ||| mp) 0

/-- `Canvas::draw_format_info_patterns`; `none` models the `panic!` paths. -/
def drawFormatInfoPatterns (ver : Version) (w : Int) (ec : EcLevel) (p : MaskPattern)
    (c : Canvas) : Option Canvas :=
  (formatInfoNumber ver ec p).map fun fi => drawFormatInfoPatternsWithNumber ver w fi c

/-- `Canvas::apply_mask`; `none` models the `panic!` paths of the
format-info step. -/
def applyMask (ver : Version) (w : Int) (ec : EcLevel) (p : MaskPattern) (c : Canvas) :
    Option Canvas :=
  drawFormatInfoPatterns ver w ec p (applyMaskLoop c w (maskFunction p))

/-- `Canvas::colors`: the module colors in storage order (row-major, x
fastest), as read back by `Module::from_iter` over the packed buffer. -/
def Canvas.colors (c : Canvas) (w : Int) : List Color :=
  (intRange 0 (w - 1)).flatMap fun y => (intRange 0 (w - 1)).map fun x => (c.get w x y).color

/-- The packing loop of `Canvas::color_bits`: `buf` is shifted left by one
bit per color, a byte is pushed after every eighth color, and the final
`buf` is pushed unconditionally at the end. -/
def colorBitsGo : List Color → Nat → Nat → List Nat → List Nat
  | [], _, buf, acc => acc ++ [buf]
  | col :: rest, i, buf, acc =>
      let buf2 := 2 * buf + (if col = Color.dark then 1 else 0)
      if i % 8 = 7 then colorBitsGo rest (i + 1) 0 (acc ++ [buf2])
      else colorBitsGo rest (i + 1) buf2 acc

/-- `Canvas::color_bits`. -/
def Canvas.colorBits (c : Canvas) (w : Int) : List Nat :=
  colorBitsGo (c.colors w) 0 0 []

/-- The run-scanning loop of `Canvas::compute_adjacent_penalty_score`:
starting from `last_color = Module::EMPTY` and `consecutive_len = 1`, a run
is flushed (adding `len − 2` points when `len ≥ 5`) each time a different
module value arrives; nothing is flushed when the stream ends. -/
def adjacentGo : Module → Nat → Nat → List Module → Nat
  | _, _, acc, [] => acc
  | last, len, acc, m :: rest =>
      if m = last then adjacentGo last (len + 1) acc rest
      else adjacentGo m 1 (acc + if 5 ≤ len then len - 2 else 0) rest

/-- One row (or column) of `Canvas::compute_adjacent_penalty_score`: the
module stream is chained with one `Module::EMPTY` sentinel. -/
def adjacentLineScore (l : List Module) : Nat :=
  adjacentGo Module.EMPTY 1 0 (l ++ [Module.EMPTY])

/-- `Canvas::compute_adjacent_penalty_score`.  The `u16` accumulator of the
source cannot overflow: each line of length `w` contributes at most `w − 1`
points, so the total is below `w * w` which is at most `177 * 177 < 2 ^ 16`
for every implemented version. -/
def computeAdjacentPenaltyScore (c : Canvas) (w : Int) (isHorizontal : Bool) : Nat :=
  ((intRange 0 (w - 1)).map fun i =>
      adjacentLineScore
        ((intRange 0 (w - 1)).map fun j =>
          if isHorizontal then c.get w j i else c.get w i j)).sum

/-- The reference pattern `PATTERN` of
`Canvas::compute_finder_penalty_score`. -/
def finderPattern : List Color :=
  [Color.dark, Color.light, Color.dark, Color.dark, Color.dark, Color.light, Color.dark]

/-- The module color read by `Canvas::compute_finder_penalty_score` at
in-line position `k` of line `i` (horizontal: row `i`; vertical: column
`i`). -/
def lineColor (c : Canvas) (w : Int) (isHorizontal : Bool) (i k : Int) : Color :=
  if isHorizontal then (c.get w k i).color else (c.get w i k).color

/-- The `check` predicate of `Canvas::compute_finder_penalty_score`: an
index is only counted when it lies inside the canvas and is not light. -/
def finderCheck (c : Canvas) (w : Int) (isHorizontal : Bool) (i k : Int) : Bool :=
  decide (0 ≤ k) && decide (k < w) && decide (lineColor c w isHorizontal i k ≠ Color.light)

/-- Whether position `(i, j)` scores 40 points in
`Canvas::compute_finder_penalty_score`: the seven colors starting at `j`
match `PATTERN` and at least one of the two four-module windows around them
has no in-canvas non-light module. -/
def finderScoresAt (c : Canvas) (w : Int) (isHorizontal : Bool) (i j : Int) : Bool :=
  decide ((intRange j (j + 6)).map (lineColor c w isHorizontal i) = finderPattern) &&
    (!((intRange (j - 4) (j - 1)).any fun k => finderCheck c w isHorizontal i k) ||
      !((intRange (j + 7) (j + 10)).any fun k => finderCheck c w isHorizontal i k))

/-- The accumulated score of `Canvas::compute_finder_penalty_score` before
the final subtraction of 360, as an exact natural number (the `u16`
accumulator of the source wraps modulo `2 ^ 16`; the wrapped value is
recovered below by one reduction of this exact sum). -/
def computeFinderPenaltyRaw (c : Canvas) (w : Int) (isHorizontal : Bool) : Nat :=
  ((intRange 0 (w - 1)).map fun i =>
      ((intRange 0 (w - 7)).map fun j =>
          if finderScoresAt c w isHorizontal i j then (40 : Nat) else 0).sum).sum

/-- `Canvas::compute_finder_penalty_score`: the wrapping `u16` subtraction
`total_score - 360` (release semantics of Rust unsigned overflow). -/
def computeFinderPenaltyScore (c : Canvas) (w : Int) (isHorizontal : Bool) : Nat :=
  (computeFinderPenaltyRaw c w isHorizontal + 65536 - 360) % 65536

/-! ### Basic facts about coordinates, ranges and `put` chains -/

theorem normc_of_nonneg {w x : Int} (h : 0 ≤ x) : normc w x = x := by
  simp [normc, not_lt.mpr h]

theorem normc_of_neg {w x : Int} (h : x < 0) : normc w x = x + w := by
  simp [normc, h]

theorem mem_intRange {a b x : Int} : x ∈ intRange a b ↔ a ≤ x ∧ x ≤ b := by
  unfold intRange
  rw [List.mem_map]
  constructor
  · rintro ⟨k, hk, he⟩
    rw [List.mem_range] at hk
    simp only [Int.ofNat_eq_coe] at he
    omega
  · rintro ⟨h1, h2⟩
    refine ⟨(x - a).toNat, List.mem_range.mpr (by omega), ?_⟩
    simp only [Int.ofNat_eq_coe]
    omega

theorem length_intRange {a b : Int} : (intRange a b).length = (b + 1 - a).toNat := by
  rw [intRange, List.length_map, List.length_range]

theorem get_put (c : Canvas) (w x y col a b) :
    (c.put w x y col).get w a b =
      if normc w a = normc w x ∧ normc w b = normc w y then Module.masked col
      else c.get w a b := rfl

theorem get_putUnmasked (c : Canvas) (w x y col a b) :
    (c.putUnmasked w x y col).get w a b =
      if normc w a = normc w x ∧ normc w b = normc w y then Module.unmasked col
      else c.get w a b := rfl

/-- Whether the instruction writes the (normalized) cell `(a, b)`. -/
def Instr.hits (i : Instr) (w a b : Int) : Prop :=
  normc w i.x = normc w a ∧ normc w i.y = normc w b

instance (i : Instr) (w a b : Int) : Decidable (i.hits w a b) := by
  unfold Instr.hits; infer_instance

/-- The last instruction of the list writing the cell `(a, b)`, if any. -/
def lastHit (w a b : Int) : List Instr → Option Instr
  | [] => none
  | i :: t =>
      match lastHit w a b t with
      | some j => some j
      | none => if i.hits w a b then some i else none

theorem putList_nil (c : Canvas) (w : Int) : c.putList w [] = c := rfl

theorem putList_cons (c : Canvas) (w : Int) (i : Instr) (t : List Instr) :
    c.putList w (i :: t) = (c.put w i.x i.y i.color).putList w t := rfl

theorem putList_append (c : Canvas) (w : Int) (l1 l2 : List Instr) :
    c.putList w (l1 ++ l2) = (c.putList w l1).putList w l2 := by
  simp [Canvas.putList, List.foldl_append]

theorem get_putList (c : Canvas) (w : Int) (l : List Instr) (a b : Int) :
    (c.putList w l).get w a b =
      match lastHit w a b l with
      | some j => Module.masked j.color
      | none => c.get w a b := by
  induction l generalizing c with
  | nil => rfl
  | cons i t ih =>
      rw [putList_cons, ih]
      cases h : lastHit w a b t with
      | some j => simp [lastHit, h]
      | none =>
          simp only [lastHit, h, get_put]
          by_cases hh : i.hits w a b
          · have : normc w a = normc w i.x ∧ normc w b = normc w i.y := ⟨hh.1.symm, hh.2.symm⟩
            simp [hh, this]
          · have : ¬(normc w a = normc w i.x ∧ normc w b = normc w i.y) := by
              simp only [Instr.hits] at hh
              omega
            simp [hh, this]

theorem lastHit_eq_none {w a b : Int} {l : List Instr} (h : ∀ i ∈ l, ¬ i.hits w a b) :
    lastHit w a b l = none := by
  induction l with
  | nil => rfl
  | cons i t ih =>
      simp only [lastHit, ih fun j hj => h j (List.mem_cons_of_mem i hj)]
      simp [h i (List.mem_cons_self i t)]

theorem lastHit_mem {w a b : Int} {l : List Instr} {j : Instr}
    (hj : lastHit w a b l = some j) : j ∈ l ∧ j.hits w a b := by
  induction l with
  | nil => cases hj
  | cons k t ih =>
      rw [lastHit] at hj
      cases ht : lastHit w a b t with
      | some j2 =>
          rw [ht] at hj
          obtain rfl : j2 = j := by cases hj; rfl
          obtain ⟨h1, h2⟩ := ih ht
          exact ⟨List.mem_cons_of_mem _ h1, h2⟩
      | none =>
          rw [ht] at hj
          by_cases hk : k.hits w a b
          · rw [if_pos hk] at hj
            obtain rfl : k = j := by cases hj; rfl
            exact ⟨List.mem_cons_self _ _, hk⟩
          · rw [if_neg hk] at hj; cases hj

theorem no_hit_of_lastHit_eq_none {w a b : Int} {l : List Instr}
    (h : lastHit w a b l = none) : ∀ i ∈ l, ¬ i.hits w a b := by
  induction l with
  | nil => simp
  | cons k t ih =>
      rw [lastHit] at h
      cases ht : lastHit w a b t with
      | some j2 => rw [ht] at h; cases h
      | none =>
          rw [ht] at h
          intro i hi
          rcases List.mem_cons.mp hi with rfl | hit
          · intro hk; rw [if_pos hk] at h; cases h
          · exact ih ht i hit

theorem lastHit_of_hit {w a b : Int} {l : List Instr} {i : Instr} (hm : i ∈ l)
    (hh : i.hits w a b) : ∃ j, lastHit w a b l = some j ∧ j ∈ l ∧ j.hits w a b := by
  cases h : lastHit w a b l with
  | some j => exact ⟨j, rfl, lastHit_mem h⟩
  | none => exact absurd hh (no_hit_of_lastHit_eq_none h i hm)

theorem get_putList_not_hit {c : Canvas} {w : Int} {l : List Instr} {a b : Int}
    (h : ∀ i ∈ l, ¬ i.hits w a b) : (c.putList w l).get w a b = c.get w a b := by
  rw [get_putList, lastHit_eq_none h]

theorem isMasked_get_putList {c : Canvas} {w : Int} {l : List Instr} {a b : Int}
    (h : (c.get w a b).isMasked = true) : ((c.putList w l).get w a b).isMasked = true := by
  rw [get_putList]
  cases lastHit w a b l with
  | some j => rfl
  | none => exact h

theorem isMasked_get_putList_of_hit {c : Canvas} {w : Int} {l : List Instr} {a b : Int}
    {i : Instr} (hm : i ∈ l) (hh : i.hits w a b) :
    ((c.putList w l).get w a b).isMasked = true := by
  obtain ⟨j, hj, -, -⟩ := lastHit_of_hit hm hh
  rw [get_putList, hj]
  rfl

/-! ### C7: Micro QR format-info preconditions -/

/-- The Micro-admissible mask patterns of the claim. -/
def microAdmissiblePattern (p : MaskPattern) : Prop :=
  p = MaskPattern.horizontalLines ∨ p = MaskPattern.largeCheckerboard ∨
    p = MaskPattern.diamonds ∨ p = MaskPattern.meadow

/-- The eight Micro-admissible (version, EC level) pairs of the claim. -/
def microAdmissiblePair (a : Int) (ec : EcLevel) : Prop :=
  (a = 1 ∧ ec = EcLevel.L) ∨ (a = 2 ∧ ec = EcLevel.L) ∨ (a = 2 ∧ ec = EcLevel.M) ∨
    (a = 3 ∧ ec = EcLevel.L) ∨ (a = 3 ∧ ec = EcLevel.M) ∨ (a = 4 ∧ ec = EcLevel.L) ∨
    (a = 4 ∧ ec = EcLevel.M) ∨ (a = 4 ∧ ec = EcLevel.Q)

instance (p : MaskPattern) : Decidable (microAdmissiblePattern p) := by
  unfold microAdmissiblePattern; infer_instance

instance (a : Int) (ec : EcLevel) : Decidable (microAdmissiblePair a ec) := by
  unfold microAdmissiblePair; infer_instance

/-- C7: on a Micro QR canvas, the format-info step fails (the `panic!`
paths, modelled by `none`) exactly when the requested mask pattern is not
one of HorizontalLines, LargeCheckerboard, Diamonds, Meadow or the
(version, EC-level) pair is not one of the eight admissible Micro
combinations; for all admissible inputs no failure occurs.  Since
`Canvas::apply_mask` calls this step, encoding cannot proceed on the
failing inputs. -/
theorem c7_micro_format_precondition (a : Int) (ec : EcLevel) (p : MaskPattern)
    (h1 : 1 ≤ a) (h2 : a ≤ 4) :
    (formatInfoNumber (Version.micro a) ec p = none ↔
      ¬ microAdmissiblePattern p ∨ ¬ microAdmissiblePair a ec) := by
  have ha : a = 1 ∨ a = 2 ∨ a = 3 ∨ a = 4 := by omega
  rcases ha with rfl | rfl | rfl | rfl <;> cases ec <;> cases p <;> decide

/-- Witness for C7 at the concrete input Micro-2 with pattern
`Checkerboard` (a QR-only pattern): the format step indeed fails. -/
theorem c7_micro_format_precondition_witness :
    (1 ≤ (2 : Int) ∧ (2 : Int) ≤ 4) ∧
      (formatInfoNumber (Version.micro 2) EcLevel.L MaskPattern.checkerboard = none ↔
        ¬ microAdmissiblePattern MaskPattern.checkerboard ∨
          ¬ microAdmissiblePair 2 EcLevel.L) :=
  ⟨by decide, c7_micro_format_precondition 2 EcLevel.L MaskPattern.checkerboard
    (by decide) (by decide)⟩

/-! ### C4: the S1 adjacency penalty -/

/-- The lengths of the maximal runs of equal elements of a module list,
accumulating a run of `a` of current length `n`. -/
def runsAux (a : Module) (n : Nat) : List Module → List Nat
  | [] => [n]
  | b :: rest => if b = a then runsAux a (n + 1) rest else n :: runsAux b 1 rest

/-- The lengths of the maximal runs of equal elements of a module list. -/
def runLengths : List Module → List Nat
  | [] => []
  | a :: rest => runsAux a 1 rest

/-- The points awarded for one run in the S1 adjacency penalty: `L − 2`
when `L ≥ 5`. -/
def runPoints (n : Nat) : Nat := if 5 ≤ n then n - 2 else 0

/-- The S1 line score exactly as the claim states it: `L − 2` points for
every maximal run of length `L ≥ 5` of the line itself (a sentinel distinct
from every real module value would flush every run, so every maximal run is
scored). -/
def claimAdjacentLineScore (l : List Module) : Nat :=
  ((runLengths l).map runPoints).sum

/-- The S1 penalty exactly as the claim states it. -/
def claimAdjacentScore (c : Canvas) (w : Int) (isHorizontal : Bool) : Nat :=
  ((intRange 0 (w - 1)).map fun i =>
      claimAdjacentLineScore
        ((intRange 0 (w - 1)).map fun j =>
          if isHorizontal then c.get w j i else c.get w i j)).sum

/-- The S1 line score the source actually computes: the scanned stream is
one virtual `Unmasked(Light)` module (the initial `last_color`), then the
line, then one `Unmasked(Light)` sentinel, and every maximal run of that
stream except the final one scores `L − 2` when `L ≥ 5` (the final run is
never flushed because the loop ends without a flush). -/
def amendedAdjacentLineScore (l : List Module) : Nat :=
  (((runLengths (Module.EMPTY :: (l ++ [Module.EMPTY]))).dropLast).map runPoints).sum

/-- The S1 penalty with the amended line score. -/
def amendedAdjacentScore (c : Canvas) (w : Int) (isHorizontal : Bool) : Nat :=
  ((intRange 0 (w - 1)).map fun i =>
      amendedAdjacentLineScore
        ((intRange 0 (w - 1)).map fun j =>
          if isHorizontal then c.get w j i else c.get w i j)).sum

theorem runsAux_ne_nil (a : Module) (n : Nat) (l : List Module) : runsAux a n l ≠ [] := by
  induction l generalizing a n with
  | nil => simp [runsAux]
  | cons b rest ih =>
      rw [runsAux]
      by_cases h : b = a
      · rw [if_pos h]; exact ih a (n + 1)
      · rw [if_neg h]; simp

theorem adjacentGo_eq (stream : List Module) :
    ∀ (last : Module) (len acc : Nat),
      adjacentGo last len acc stream =
        acc + (((runsAux last len stream).dropLast).map runPoints).sum := by
  induction stream with
  | nil => intro last len acc; simp [adjacentGo, runsAux]
  | cons m rest ih =>
      intro last len acc
      rw [adjacentGo, runsAux]
      by_cases h : m = last
      · rw [if_pos h, if_pos h, ih]
      · rw [if_neg h, if_neg h, ih,
          List.dropLast_cons_of_ne_nil (runsAux_ne_nil m 1 rest), List.map_cons,
          List.sum_cons, runPoints]
        omega

theorem adjacentLineScore_eq (l : List Module) :
    adjacentLineScore l = amendedAdjacentLineScore l := by
  rw [adjacentLineScore, amendedAdjacentLineScore, adjacentGo_eq, runLengths]
  omega

/-- C4 counterexample: on the fresh Version-1 canvas (every module is
`Unmasked(Light)`), the source computes 0 points horizontally, while the
claim (maximal runs of the line, flushed by a sentinel distinct from every
real module value) would give `21 * (21 - 2) = 399` points: the source
never flushes a trailing run because the chained sentinel `Module::EMPTY`
equals a real module value, and its initial `last_color = EMPTY` with
`consecutive_len = 1` prepends a phantom module. -/
theorem c4_counterexample :
    ¬ (computeAdjacentPenaltyScore Canvas.empty 21 true =
        claimAdjacentScore Canvas.empty 21 true) := by
  decide

/-- C4 (amended): the S1 adjacency penalty equals, for each row
(respectively column), the sum of `L − 2` over the maximal runs of length
`L ≥ 5` of the stream consisting of one virtual `Unmasked(Light)` module,
the line, and one trailing `Unmasked(Light)` sentinel — every maximal run
of that stream except the final (never flushed) one; two modules are equal
iff their full 4-state `Module` values are identical. -/
theorem c4_adjacent_penalty_amended (c : Canvas) (w : Int) (isHorizontal : Bool) :
    computeAdjacentPenaltyScore c w isHorizontal = amendedAdjacentScore c w isHorizontal := by
  rw [computeAdjacentPenaltyScore, amendedAdjacentScore]
  congr 1
  apply List.map_congr_left
  intro i _
  exact adjacentLineScore_eq _

/-! ### C6: the packed color readout -/

/-- The bit of a color in the packed readout (`Dark` is 1). -/
def colorBit (col : Color) : Nat := if col = Color.dark then 1 else 0

/-- The value of the byte pushed last by the packing loop (the final
unconditional `result.push(buf)`). -/
def lastBufVal : List Color → Nat → Nat → Nat
  | [], _, buf => buf
  | col :: rest, i, buf =>
      let buf2 := 2 * buf + (if col = Color.dark then 1 else 0)
      if i % 8 = 7 then lastBufVal rest (i + 1) 0 else lastBufVal rest (i + 1) buf2

theorem colorBitsGo_acc (l : List Color) :
    ∀ (i buf : Nat) (acc : List Nat), colorBitsGo l i buf acc = acc ++ colorBitsGo l i buf [] := by
  induction l with
  | nil => intro i buf acc; simp [colorBitsGo]
  | cons col rest ih =>
      intro i buf acc
      simp only [colorBitsGo]
      by_cases h : i % 8 = 7
      · rw [if_pos h, if_pos h, ih (i + 1) 0 (acc ++ _), ih (i + 1) 0 ([] ++ _)]
        simp
      · rw [if_neg h, if_neg h]
        exact ih _ _ acc

theorem length_colorBitsGo (l : List Color) :
    ∀ (i buf : Nat) (acc : List Nat),
      (colorBitsGo l i buf acc).length = acc.length + (i % 8 + l.length) / 8 + 1 := by
  induction l with
  | nil =>
      intro i buf acc
      have h8 : i % 8 < 8 := Nat.mod_lt _ (by omega)
      simp only [colorBitsGo, List.length_append, List.length_cons, List.length_nil]
      omega
  | cons col rest ih =>
      intro i buf acc
      simp only [colorBitsGo]
      have h8 : i % 8 < 8 := Nat.mod_lt _ (by omega)
      by_cases h : i % 8 = 7
      · rw [if_pos h, ih]
        simp only [List.length_append, List.length_cons, List.length_nil]
        have : (i + 1) % 8 = 0 := by omega
        rw [this]
        omega
      · rw [if_neg h, ih]
        have : (i + 1) % 8 = i % 8 + 1 := by omega
        rw [this]
        simp only [List.length_cons]
        omega

theorem getLast?_colorBitsGo (l : List Color) :
    ∀ (i buf : Nat) (acc : List Nat),
      (colorBitsGo l i buf acc).getLast? = some (lastBufVal l i buf) := by
  induction l with
  | nil => intro i buf acc; simp [colorBitsGo, lastBufVal]
  | cons col rest ih =>
      intro i buf acc
      simp only [colorBitsGo, lastBufVal]
      by_cases h : i % 8 = 7
      · rw [if_pos h, if_pos h, ih]
      · rw [if_neg h, if_neg h, ih]

theorem lastBufVal_single (l : List Color) :
    ∀ (i buf : Nat), (i % 8 + l.length) % 8 = 1 → buf < 2 ^ (i % 8) →
      ∀ h : l ≠ [], lastBufVal l i buf = colorBit (l.getLast h) := by
  induction l with
  | nil => intro i buf _ _ h; exact absurd rfl h
  | cons col rest ih =>
      intro i buf hlen hbuf h
      have h8 : i % 8 < 8 := Nat.mod_lt _ (by omega)
      simp only [lastBufVal]
      cases rest with
      | nil =>
          have hi : i % 8 = 0 := by
            simp only [List.length_cons, List.length_nil] at hlen
            omega
          have hb : buf = 0 := by rw [hi] at hbuf; omega
          rw [if_neg (by omega), hb]
          simp [lastBufVal, List.getLast, colorBit]
      | cons c2 t =>
          have hne : (c2 :: t) ≠ [] := by simp
          rw [List.getLast_cons hne]
          by_cases hc : i % 8 = 7
          · rw [if_pos hc]
            apply ih
            · simp only [List.length_cons] at hlen ⊢
              omega
            · have : (i + 1) % 8 = 0 := by omega
              rw [this]
              omega
          · rw [if_neg hc]
            apply ih
            · simp only [List.length_cons] at hlen ⊢
              omega
            · have h1 : (i + 1) % 8 = i % 8 + 1 := by omega
              have h2 : (if col = Color.dark then 1 else 0) ≤ 1 := by
                split <;> omega
              rw [h1, pow_succ]
              omega

theorem intRange_eq_cons {a b : Int} (h : a ≤ b) : intRange a b = a :: intRange (a + 1) b := by
  unfold intRange
  have h1 : (b + 1 - a).toNat = (b + 1 - (a + 1)).toNat + 1 := by omega
  rw [h1, List.range_succ_eq_map, List.map_cons, List.map_map]
  congr 1
  · simp
  · apply List.map_congr_left
    intro k _
    simp only [Function.comp_apply, Int.ofNat_eq_coe]
    push_cast
    omega

theorem colorBitsGo_head8 (b0 b1 b2 b3 b4 b5 b6 b7 : Color) (rest : List Color) :
    colorBitsGo (b0 :: b1 :: b2 :: b3 :: b4 :: b5 :: b6 :: b7 :: rest) 0 0 [] =
      (128 * colorBit b0 + 64 * colorBit b1 + 32 * colorBit b2 + 16 * colorBit b3 +
          8 * colorBit b4 + 4 * colorBit b5 + 2 * colorBit b6 + colorBit b7) ::
        colorBitsGo rest 8 0 [] := by
  have h : colorBitsGo (b0 :: b1 :: b2 :: b3 :: b4 :: b5 :: b6 :: b7 :: rest) 0 0 [] =
      colorBitsGo rest 8 0
        [2 * (2 * (2 * (2 * (2 * (2 * (2 * (2 * 0 + colorBit b0) + colorBit b1) + colorBit b2) +
          colorBit b3) + colorBit b4) + colorBit b5) + colorBit b6) + colorBit b7] := rfl
  rw [h, colorBitsGo_acc rest 8 0, List.singleton_append]
  congr 1
  omega

theorem colorBit_le_one (col : Color) : colorBit col ≤ 1 := by
  cases col <;> decide

theorem head_byte_general (l : List Color) (h8 : 8 ≤ l.length) :
    ((colorBitsGo l 0 0 []).headD 0) / 128 = colorBit (l.headD Color.light) ∧
      (colorBitsGo l 0 0 []).headD 0 < 256 := by
  rcases l with _ | ⟨b0, _ | ⟨b1, _ | ⟨b2, _ | ⟨b3, _ | ⟨b4, _ | ⟨b5, _ | ⟨b6, _ | ⟨b7, rest⟩⟩⟩⟩⟩⟩⟩⟩ <;>
    simp only [List.length_cons, List.length_nil] at h8
  all_goals try omega
  rw [colorBitsGo_head8]
  have h0 := colorBit_le_one b0
  have h1 := colorBit_le_one b1
  have h2 := colorBit_le_one b2
  have h3 := colorBit_le_one b3
  have h4 := colorBit_le_one b4
  have h5 := colorBit_le_one b5
  have h6 := colorBit_le_one b6
  have h7 := colorBit_le_one b7
  simp only [List.headD_cons]
  omega

theorem length_flatMap_const {α β : Type} (l : List α) (f : α → List β) (n : Nat)
    (h : ∀ a ∈ l, (f a).length = n) : (l.flatMap f).length = l.length * n := by
  induction l with
  | nil => simp
  | cons a t ih =>
      rw [List.flatMap_cons, List.length_append, h a (List.mem_cons_self a t),
        ih fun x hx => h x (List.mem_cons_of_mem a hx), List.length_cons, Nat.succ_mul]
      omega

theorem length_colors (c : Canvas) (w : Int) (hw : 0 ≤ w) :
    (c.colors w).length = w.toNat * w.toNat := by
  rw [Canvas.colors,
    length_flatMap_const _ _ w.toNat (fun y _ => by rw [List.length_map, length_intRange]; omega),
    length_intRange]
  congr 1
  omega

theorem colors_headD (c : Canvas) (w : Int) (hw : 1 ≤ w) :
    (c.colors w).headD Color.light = (c.get w 0 0).color := by
  rw [Canvas.colors, intRange_eq_cons (by omega : (0:Int) ≤ w - 1), List.flatMap_cons,
    List.map_cons]
  rfl

theorem odd_sq_mod_eight {n : Nat} (h : n % 2 = 1) : n * n % 8 = 1 := by
  obtain ⟨k, hk⟩ : ∃ k, n = 2 * k + 1 := ⟨n / 2, by omega⟩
  subst hk
  have h2 : (2 * k + 1) * (2 * k + 1) = 4 * (k * (k + 1)) + 1 := by ring
  obtain ⟨m, hm⟩ := Nat.even_mul_succ_self k
  omega

/-- C6 counterexample: on the Version-1 canvas holding a single dark module
at (20, 20) — the last module of the readout — the trailing byte of
`color_bits` is 1, i.e. the single remaining color sits in the LEAST
significant bit; the claim would put it in the high-order bits (bit 7
set), but bit 7 of the trailing byte is clear. -/
theorem c6_counterexample :
    ((Canvas.empty.put 21 20 20 Color.dark).get 21 20 20).color = Color.dark ∧
      ((Canvas.empty.put 21 20 20 Color.dark).colorBits 21).getLast? = some 1 ∧
      ¬ (Nat.testBit
          ((((Canvas.empty.put 21 20 20 Color.dark).colorBits 21).getLast?).getD 0) 7) := by
  refine ⟨by decide, ?_, ?_⟩ <;> decide

/-- C6 (amended): for every odd width `w ≥ 3` (every implemented version
has odd width) and every canvas, `color_bits` has length exactly
`⌈w² / 8⌉`; the most significant bit of byte 0 is the color at (0, 0);
and the partial trailing byte holds the single remaining module color
(`w² mod 8 = 1`) in its LOW-order bit. -/
theorem c6_color_bits_amended (c : Canvas) (w : Int) (hw : 3 ≤ w) (hodd : w % 2 = 1) :
    (c.colorBits w).length = (w.toNat * w.toNat + 7) / 8 ∧
      ((c.colorBits w).headD 0) / 128 = colorBit ((c.get w 0 0).color) ∧
      ((c.colorBits w).headD 0) < 256 ∧
      (c.colorBits w).getLast? = ((c.colors w).getLast?).map colorBit := by
  have hlen : (c.colors w).length = w.toNat * w.toNat := length_colors c w (by omega)
  have hodd2 : w.toNat % 2 = 1 := by omega
  have hmod : w.toNat * w.toNat % 8 = 1 := odd_sq_mod_eight hodd2
  have hge : 9 ≤ w.toNat * w.toNat := by
    have : 3 ≤ w.toNat := by omega
    calc 9 = 3 * 3 := by norm_num
    _ ≤ w.toNat * w.toNat := Nat.mul_le_mul this this
  refine ⟨?_, ?_, ?_, ?_⟩
  · rw [Canvas.colorBits, length_colorBitsGo, hlen]
    simp only [List.length_nil]
    omega
  · rw [Canvas.colorBits, (head_byte_general (c.colors w) (by omega)).1,
      colors_headD c w (by omega)]
  · rw [Canvas.colorBits]
    exact (head_byte_general (c.colors w) (by omega)).2
  · rw [Canvas.colorBits, getLast?_colorBitsGo]
    have hne : c.colors w ≠ [] := by
      intro hc
      rw [hc] at hlen
      simp at hlen
      omega
    rw [lastBufVal_single (c.colors w) 0 0 (by rw [hlen]; omega) (by norm_num) hne,
      List.getLast?_eq_getLast _ hne]
    rfl

/-- Witness for the amended C6 at the fresh Version-1 canvas. -/
theorem c6_color_bits_amended_witness :
    ((3 : Int) ≤ 21 ∧ (21 : Int) % 2 = 1) ∧
      ((Canvas.empty.colorBits 21).length = ((21 : Int).toNat * (21 : Int).toNat + 7) / 8 ∧
        (Canvas.empty.colorBits 21).headD 0 / 128 = colorBit ((Canvas.empty.get 21 0 0).color) ∧
        (Canvas.empty.colorBits 21).headD 0 < 256 ∧
        (Canvas.empty.colorBits 21).getLast? = ((Canvas.empty.colors 21).getLast?).map colorBit) :=
  ⟨by decide, c6_color_bits_amended Canvas.empty 21 (by decide) (by decide)⟩

/-! ### C3: the S3 finder-like penalty -/

/-- The window test as the claim words it: the window contains at least
one non-light module, where an out-of-canvas index counts as non-light
(dark). -/
def claimWindowNonlight (c : Canvas) (w : Int) (isHorizontal : Bool) (i lo hi : Int) : Bool :=
  (intRange lo hi).any fun k =>
    decide (k < 0) || decide (w ≤ k) || decide (lineColor c w isHorizontal i k ≠ Color.light)

/-- Whether a position scores per the claim: the 7-module pattern occurs
and it is not the case that both 4-module windows contain a non-light
module (out-of-canvas counting as non-light). -/
def claimFinderScoresAt (c : Canvas) (w : Int) (isHorizontal : Bool) (i j : Int) : Bool :=
  decide ((intRange j (j + 6)).map (lineColor c w isHorizontal i) = finderPattern) &&
    !(claimWindowNonlight c w isHorizontal i (j - 4) (j - 1) &&
      claimWindowNonlight c w isHorizontal i (j + 7) (j + 10))

/-- The S3 penalty exactly as the claim states it: 40 points per scoring
position, minus the constant 360 (the same wrapping `u16` subtraction). -/
def claimFinderPenaltyScore (c : Canvas) (w : Int) (isHorizontal : Bool) : Nat :=
  (40 * ((intRange 0 (w - 1)).map fun i =>
        ((intRange 0 (w - 7)).filter fun j => claimFinderScoresAt c w isHorizontal i j).length).sum
      + 65536 - 360) % 65536

/-- Whether a position scores, with the amended window convention: an
out-of-canvas index never counts as non-light (the `0 ≤ k < width` guard
of the `check` closure sits inside the `any`). -/
def amendedFinderScoresAt (c : Canvas) (w : Int) (isHorizontal : Bool) (i j : Int) : Bool :=
  decide ((intRange j (j + 6)).map (lineColor c w isHorizontal i) = finderPattern) &&
    !(((intRange (j - 4) (j - 1)).any fun k => finderCheck c w isHorizontal i k) &&
      ((intRange (j + 7) (j + 10)).any fun k => finderCheck c w isHorizontal i k))

/-- The number of scoring positions with the amended window convention. -/
def amendedFinderCount (c : Canvas) (w : Int) (isHorizontal : Bool) : Nat :=
  ((intRange 0 (w - 1)).map fun i =>
      ((intRange 0 (w - 7)).filter fun j => amendedFinderScoresAt c w isHorizontal i j).length).sum

/-- The counterexample canvas for C3: on a width-11 canvas, row 0 holds the
finder-like pattern at columns 0..6 and one extra dark module at (8, 0)
inside the after-window. -/
def c3Canvas : Canvas :=
  (((((Canvas.empty.put 11 0 0 Color.dark).put 11 2 0 Color.dark).put 11 3 0
        Color.dark).put 11 4 0 Color.dark).put 11 6 0 Color.dark).put 11 8 0 Color.dark

/-- C3 counterexample: the source awards the 40 points at (0, 0) because
the before-window lies entirely outside the canvas, so its `any(check)` is
false; under the claim reading the out-of-canvas before-window counts as
non-light and, the after-window holding the dark module (8, 0), no points
would be awarded.  The two S3 values differ. -/
theorem c3_counterexample :
    ¬ (computeFinderPenaltyScore c3Canvas 11 true = claimFinderPenaltyScore c3Canvas 11 true) := by
  decide

theorem sum_map_if40 (l : List Int) (p : Int → Bool) :
    (l.map fun j => if p j then (40 : Nat) else 0).sum = 40 * (l.filter p).length := by
  induction l with
  | nil => simp
  | cons a t ih =>
      rw [List.map_cons, List.sum_cons, ih, List.filter_cons]
      by_cases h : p a
      · rw [if_pos h, if_pos h, List.length_cons]
        ring
      · rw [if_neg h, if_neg h]
        omega

theorem sum_map_mul40 (l : List Int) (f : Int → Nat) :
    (l.map fun i => 40 * f i).sum = 40 * (l.map f).sum := by
  induction l with
  | nil => simp
  | cons a t ih =>
      rw [List.map_cons, List.sum_cons, ih, List.map_cons, List.sum_cons]
      ring

theorem finderScoresAt_eq_amended (c : Canvas) (w : Int) (isHorizontal : Bool) (i j : Int) :
    finderScoresAt c w isHorizontal i j = amendedFinderScoresAt c w isHorizontal i j := by
  rw [finderScoresAt, amendedFinderScoresAt, Bool.not_and]

/-- C3 (amended): for every canvas and each orientation, the S3 penalty
equals 40 points for every position where the 7-module pattern
`[D, L, D, D, D, L, D]` occurs, unless both 4-module windows around it
contain at least one non-light module — where an out-of-canvas index
counts as LIGHT (never as non-light, since the range guard of `check`
sits inside the `any`) — followed by the wrapping `u16` subtraction of the
constant 360. -/
theorem c3_finder_penalty_amended (c : Canvas) (w : Int) (isHorizontal : Bool) :
    computeFinderPenaltyScore c w isHorizontal =
      (40 * amendedFinderCount c w isHorizontal + 65536 - 360) % 65536 := by
  have h : computeFinderPenaltyRaw c w isHorizontal = 40 * amendedFinderCount c w isHorizontal := by
    rw [computeFinderPenaltyRaw, amendedFinderCount, ← sum_map_mul40]
    apply congrArg
    apply List.map_congr_left
    intro i _
    rw [← sum_map_if40]
    apply congrArg
    apply List.map_congr_left
    intro j _
    rw [finderScoresAt_eq_amended]
  rw [computeFinderPenaltyScore, h]

/-! ### C1: the data-module walk -/

/-- The invariant satisfied by every reachable state of `DataModuleIter`
for an implemented version: odd width at least 11, the timing column 6
with width ≡ 1 (mod 4) for normal versions or 0 for micro versions,
in-range row, adjusted column between 0 and width − 1, and the x cursor
never sitting on the timing column itself. -/
def DMIter.Inv (s : DMIter) : Prop :=
  s.width % 2 = 1 ∧ 11 ≤ s.width ∧
    ((s.tpc = 6 ∧ s.width % 4 = 1) ∨ s.tpc = 0) ∧
    0 ≤ s.y ∧ s.y ≤ s.width - 1 ∧
    0 ≤ s.adjCol ∧ s.adjCol ≤ s.width - 1 ∧ s.x ≠ s.tpc

/-- The number of pairs still to be emitted, as a function of the width,
the adjusted column and the row.  The four cases follow the column class
`(width − adjCol) mod 4`: classes 1 and 3 are right columns of an upward
and a downward strip, classes 2 and 0 the corresponding left columns. -/
def rankR (w a y : Int) : Int :=
  if a ≤ 0 then 0
  else if (w - a) % 4 = 1 then 2 * (y + 1) + w * (a - 2)
  else if (w - a) % 4 = 2 then 2 * y + 1 + w * (a - 1)
  else if (w - a) % 4 = 3 then 2 * (w - y) + w * (a - 2)
  else 2 * (w - 1 - y) + 1 + w * (a - 1)

/-- The number of coordinate pairs still to be emitted from a state. -/
def DMIter.rank (s : DMIter) : Int := rankR s.width s.adjCol s.y

theorem rankR_nonneg {w a y : Int} (hw : w % 2 = 1) (hw11 : 11 ≤ w) (hy0 : 0 ≤ y)
    (hy1 : y ≤ w - 1) (ha1 : a ≤ w - 1) : 0 ≤ rankR w a y := by
  unfold rankR
  split_ifs with h1 h2 h3 h4
  · omega
  · have : 2 ≤ a := by omega
    have := mul_nonneg (show (0:Int) ≤ w by omega) (show (0:Int) ≤ a - 2 by omega)
    omega
  · have := mul_nonneg (show (0:Int) ≤ w by omega) (show (0:Int) ≤ a - 1 by omega)
    omega
  · have : 2 ≤ a := by omega
    have := mul_nonneg (show (0:Int) ≤ w by omega) (show (0:Int) ≤ a - 2 by omega)
    omega
  · have := mul_nonneg (show (0:Int) ≤ w by omega) (show (0:Int) ≤ a - 1 by omega)
    omega

theorem rank_nonneg {s : DMIter} (h : DMIter.Inv s) : 0 ≤ s.rank := by
  obtain ⟨hw2, hw11, ht, hy0, hy1, ha0, ha1, hxt⟩ := h
  exact rankR_nonneg hw2 hw11 hy0 hy1 ha1

theorem rank_of_terminal {s : DMIter} (hn : s.next = none) : s.rank = 0 := by
  rw [DMIter.next] at hn
  by_cases hA : s.adjCol ≤ 0
  · rw [DMIter.rank, rankR, if_pos hA]
  · rw [if_neg hA] at hn
    cases hn

theorem rankR_up {w a y a2 y2 : Int} (hc : (w - a) % 4 = 2) (hy : 0 < y) (ha : 1 ≤ a)
    (hw : w % 2 = 1) (ha2 : a2 = a + 1) (hy2 : y2 = y - 1) :
    rankR w a y = rankR w a2 y2 + 1 := by
  subst ha2 hy2
  unfold rankR
  rw [if_neg (by omega), if_neg (by omega), if_pos hc, if_neg (by omega),
    if_pos (by omega)]
  ring

theorem rankR_down {w a y a2 y2 : Int} (hc : (w - a) % 4 = 0) (hy : y < w - 1) (ha : 1 ≤ a)
    (hw : w % 2 = 1) (ha2 : a2 = a + 1) (hy2 : y2 = y + 1) :
    rankR w a y = rankR w a2 y2 + 1 := by
  subst ha2 hy2
  unfold rankR
  rw [if_neg (by omega), if_neg (by omega), if_neg (by omega), if_neg (by omega)]
  rw [if_neg (by omega), if_neg (by omega), if_neg (by omega), if_pos (by omega)]
  ring

theorem rankR_left1 {w a y a2 : Int} (hc : (w - a) % 4 = 1) (ha : 1 ≤ a) (hw : w % 2 = 1)
    (ha2 : a2 = a - 1) : rankR w a y = rankR w a2 y + 1 := by
  subst ha2
  unfold rankR
  rw [if_neg (by omega), if_pos hc, if_neg (by omega), if_neg (by omega),
    if_pos (by omega)]
  ring

theorem rankR_left3 {w a y a2 : Int} (hc : (w - a) % 4 = 3) (ha : 1 ≤ a) (hw : w % 2 = 1)
    (ha2 : a2 = a - 1) : rankR w a y = rankR w a2 y + 1 := by
  subst ha2
  unfold rankR
  rw [if_neg (by omega), if_neg (by omega), if_neg (by omega), if_pos hc]
  rw [if_neg (by omega), if_neg (by omega), if_neg (by omega), if_neg (by omega)]
  ring

theorem rankR_endUp {w a y a2 : Int} (hc : (w - a) % 4 = 2) (hy : y = 0) (ha : 1 ≤ a)
    (hw : w % 2 = 1) (ha2 : a2 = a - 1) :
    rankR w a y = rankR w a2 y + 1 := by
  subst ha2 hy
  by_cases h1 : a = 1
  · subst h1
    unfold rankR
    rw [if_neg (by omega), if_neg (by omega), if_pos hc, if_pos (by omega)]
    ring
  · unfold rankR
    rw [if_neg (by omega), if_neg (by omega), if_pos hc, if_neg (by omega),
      if_neg (by omega), if_neg (by omega), if_pos (by omega)]
    ring

theorem rankR_endDown {w a y a2 : Int} (hc : (w - a) % 4 = 0) (hy : y = w - 1) (ha : 1 ≤ a)
    (hw : w % 2 = 1) (ha2 : a2 = a - 1) :
    rankR w a y = rankR w a2 y + 1 := by
  subst ha2 hy
  by_cases h1 : a = 1
  · subst h1
    unfold rankR
    rw [if_neg (by omega), if_neg (by omega), if_neg (by omega), if_neg (by omega),
      if_pos (by omega)]
    ring
  · unfold rankR
    rw [if_neg (by omega), if_neg (by omega), if_neg (by omega)]
    rw [if_neg (by omega), if_neg (by omega), if_pos (by omega)]
    ring

theorem next_eq (s : DMIter) (hA : 0 < s.adjCol) (hwa : 0 ≤ s.width - s.adjCol) :
    s.next = some ((s.x, s.y),
      if (s.width - s.adjCol) % 4 = 2 ∧ 0 < s.y then
        DMIter.mk (s.x + 1) (s.y - 1) s.width s.tpc
      else if (s.width - s.adjCol) % 4 = 0 ∧ s.y < s.width - 1 then
        DMIter.mk (s.x + 1) (s.y + 1) s.width s.tpc
      else if ((s.width - s.adjCol) % 4 = 0 ∨ (s.width - s.adjCol) % 4 = 2) ∧ s.x = s.tpc + 1 then
        DMIter.mk (s.x - 2) s.y s.width s.tpc
      else DMIter.mk (s.x - 1) s.y s.width s.tpc) := by
  have h4 : (0 : Int) ≤ 4 := by norm_num
  simp only [DMIter.next, if_neg (show ¬ s.adjCol ≤ 0 by omega)]
  rw [Int.tmod_eq_emod hwa h4]

theorem rank_step {s : DMIter} (hInv : DMIter.Inv s) {p : Int × Int} {s2 : DMIter}
    (hn : s.next = some (p, s2)) : DMIter.Inv s2 ∧ s.rank = s2.rank + 1 := by
  obtain ⟨hw2, hw11, ht, hy0, hy1, ha0, ha1, hxt⟩ := hInv
  by_cases hA0 : s.adjCol ≤ 0
  · rw [DMIter.next] at hn
    rw [if_pos hA0] at hn
    cases hn
  rw [next_eq s (by omega) (by omega), Option.some_inj] at hn
  have hs2 := congrArg Prod.snd hn
  simp only at hs2
  subst hs2
  clear hn
  obtain ⟨x, y, w, t⟩ := s
  simp only at hw2 hw11 ht hy0 hy1 hxt ha1
  have hAgen : ∀ x2 y2 : Int, (DMIter.mk x2 y2 w t).adjCol = x2 + 1 ∧ x2 ≤ t ∨
      (DMIter.mk x2 y2 w t).adjCol = x2 ∧ t < x2 := by
    intro x2 y2
    dsimp only [DMIter.adjCol]
    split_ifs with hcase
    · exact Or.inl ⟨rfl, hcase⟩
    · exact Or.inr ⟨rfl, by omega⟩
  have hAx := hAgen x y
  dsimp only
  split_ifs with hc1 hc2 hc3
  · obtain ⟨hcm, hcy⟩ := hc1
    have hA2 := hAgen (x + 1) (y - 1)
    constructor
    · dsimp only [DMIter.Inv]
      refine ⟨hw2, hw11, ht, by omega, by omega, by omega, by omega, by omega⟩
    · dsimp only [DMIter.rank]
      exact rankR_up hcm hcy (by omega) hw2 (by omega) rfl
  · obtain ⟨hcm, hcy⟩ := hc2
    have hA2 := hAgen (x + 1) (y + 1)
    constructor
    · dsimp only [DMIter.Inv]
      refine ⟨hw2, hw11, ht, by omega, by omega, by omega, by omega, by omega⟩
    · dsimp only [DMIter.rank]
      exact rankR_down hcm hcy (by omega) hw2 (by omega) rfl
  · obtain ⟨hcc, hxe⟩ := hc3
    have hA2 := hAgen (x - 2) y
    constructor
    · dsimp only [DMIter.Inv]
      refine ⟨hw2, hw11, ht, hy0, hy1, by omega, by omega, by omega⟩
    · dsimp only [DMIter.rank]
      rcases hcc with hcm | hcm
      · exact rankR_endDown hcm (by omega) (by omega) hw2 (by omega)
      · exact rankR_endUp hcm (by omega) (by omega) hw2 (by omega)
  · have hA2 := hAgen (x - 1) y
    have hclass : (w - (DMIter.mk x y w t).adjCol) % 4 = 0 ∨
        (w - (DMIter.mk x y w t).adjCol) % 4 = 1 ∨
        (w - (DMIter.mk x y w t).adjCol) % 4 = 2 ∨
        (w - (DMIter.mk x y w t).adjCol) % 4 = 3 := by omega
    constructor
    · dsimp only [DMIter.Inv]
      refine ⟨hw2, hw11, ht, hy0, hy1, by omega, by omega, by omega⟩
    · dsimp only [DMIter.rank]
      rcases hclass with hcm | hcm | hcm | hcm
      · exact rankR_endDown hcm (by omega) (by omega) hw2 (by omega)
      · exact rankR_left1 hcm (by omega) hw2 (by omega)
      · exact rankR_endUp hcm (by omega) (by omega) hw2 (by omega)
      · exact rankR_left3 hcm (by omega) hw2 (by omega)


theorem run_length {fuel : Nat} {s : DMIter} (hInv : DMIter.Inv s)
    (hf : s.rank ≤ (fuel : Int)) : (DMIter.run fuel s).length = s.rank.toNat := by
  induction fuel generalizing s with
  | zero =>
    have h0 := rank_nonneg hInv
    simp only [DMIter.run, List.length_nil]
    omega
  | succ n ih =>
    cases hn : s.next with
    | none =>
      have h0 := rank_of_terminal hn
      simp only [DMIter.run, hn, List.length_nil]
      omega
    | some ps =>
      obtain ⟨p, s2⟩ := ps
      obtain ⟨h1, h2⟩ := rank_step hInv hn
      have h0 := rank_nonneg h1
      simp only [DMIter.run, hn, List.length_cons]
      rw [ih h1 (by push_cast at hf ⊢; omega)]
      omega

theorem Inv_new {ver : Version} (hv : ver.valid) : DMIter.Inv (DMIter.new ver) := by
  cases ver with
  | normal n =>
    have hv2 : 1 ≤ n ∧ n ≤ 40 := hv
    refine ⟨?_, ?_, Or.inl ⟨rfl, ?_⟩, ?_, ?_, ?_, ?_, ?_⟩ <;>
      dsimp only [DMIter.new, DMIter.adjCol, Version.width] <;>
      (try rw [if_neg (by omega)]) <;> omega
  | micro n =>
    have hv2 : 1 ≤ n ∧ n ≤ 4 := hv
    refine ⟨?_, ?_, Or.inr rfl, ?_, ?_, ?_, ?_, ?_⟩ <;>
      dsimp only [DMIter.new, DMIter.adjCol, Version.width] <;>
      (try rw [if_neg (by omega)]) <;> omega

theorem rankR_new {w t : Int} (hw2 : w % 2 = 1) (hw11 : 11 ≤ w) (htw : t + 1 < w) :
    rankR w (if w - 1 ≤ t then w - 1 + 1 else w - 1) (w - 1) = w * (w - 1) := by
  rw [if_neg (by omega)]
  unfold rankR
  rw [if_neg (by omega), if_pos (by omega)]
  ring

theorem rank_new {ver : Version} (hv : ver.valid) :
    (DMIter.new ver).rank = ver.width * (ver.width - 1) := by
  cases ver with
  | normal n =>
    have hv2 : 1 ≤ n ∧ n ≤ 40 := hv
    show rankR (4 * n + 17) (if 4 * n + 17 - 1 ≤ (6:Int) then 4 * n + 17 - 1 + 1 else 4 * n + 17 - 1)
      (4 * n + 17 - 1) = (4 * n + 17) * (4 * n + 17 - 1)
    exact rankR_new (by omega) (by omega) (by omega)
  | micro n =>
    have hv2 : 1 ≤ n ∧ n ≤ 4 := hv
    show rankR (2 * n + 9) (if 2 * n + 9 - 1 ≤ (0:Int) then 2 * n + 9 - 1 + 1 else 2 * n + 9 - 1)
      (2 * n + 9 - 1) = (2 * n + 9) * (2 * n + 9 - 1)
    exact rankR_new (by omega) (by omega) (by omega)

/-- C1 (counterexample): for Normal version 1 (width 21) the data-walk
iterator run to exhaustion emits 420 coordinate pairs, not
`width * width = 441` as the claim states: the walk visits each of the
`width - 1` non-timing columns once per row, skipping the vertical timing
column entirely. -/
theorem c1_data_walk_counterexample :
    ¬ ((DMIter.runAll (Version.normal 1)).length =
        ((Version.normal 1).width * (Version.normal 1).width).toNat) := by
  decide

/-- C1 (amended): for every implemented version, the data-walk iterator
`DataModuleIter`, run to exhaustion from its initial state
(width−1, width−1), emits exactly `width * (width − 1)` coordinate pairs:
one pair per module of the `width − 1` columns other than the vertical
timing column. -/
theorem c1_data_walk_amended (ver : Version) (hv : ver.valid) :
    (DMIter.runAll ver).length = (ver.width * (ver.width - 1)).toNat := by
  have hInv := Inv_new hv
  have hrank := rank_new hv
  have hw : 11 ≤ ver.width := by
    cases ver with
    | normal n => have hv2 : 1 ≤ n ∧ n ≤ 40 := hv; dsimp only [Version.width]; omega
    | micro n => have hv2 : 1 ≤ n ∧ n ≤ 4 := hv; dsimp only [Version.width]; omega
  have hle : ver.width * (ver.width - 1) ≤ ver.width * ver.width :=
    mul_le_mul_of_nonneg_left (by omega) (by omega)
  rw [DMIter.runAll, run_length hInv (by
    rw [hrank]
    calc ver.width * (ver.width - 1) ≤ ver.width * ver.width := hle
      _ ≤ ((ver.width * ver.width).toNat : Int) := Int.self_le_toNat _), hrank]

theorem c1_data_walk_amended_witness :
    (Version.normal 1).valid ∧ (DMIter.runAll (Version.normal 1)).length =
      ((Version.normal 1).width * ((Version.normal 1).width - 1)).toNat :=
  ⟨by decide, c1_data_walk_amended (Version.normal 1) (by decide)⟩


/-- The normalized cell addressed by a coordinate pair. -/
def cellOf (w : Int) (xy : Int × Int) : Int × Int := (normc w xy.1, normc w xy.2)

theorem byteBits_enumFrom (l : List Nat) (n L : Nat) (h : n + l.length ≤ L) :
    (l.enumFrom n).map (fun p => byteBits p.2 (if p.1 = L then 4 else 0)) =
      l.map fun b => byteBits b 0 := by
  induction l generalizing n with
  | nil => rfl
  | cons a t ih =>
    simp only [List.enumFrom, List.map_cons]
    rw [if_neg (by simp only [List.length_cons] at h; omega)]
    rw [ih (n + 1) (by simp only [List.length_cons] at h; omega)]

theorem codewordBits_false (l : List Nat) :
    codewordBits l false = (l.map fun b => byteBits b 0).flatten := by
  rw [codewordBits]
  simp only [Bool.false_eq_true, if_false, List.enum]
  rw [byteBits_enumFrom l 0 l.length (by omega)]

theorem codewordBits_false_append (l1 l2 : List Nat) :
    codewordBits (l1 ++ l2) false = codewordBits l1 false ++ codewordBits l2 false := by
  simp only [codewordBits_false, List.map_append, List.flatten_append]

theorem findUnmasked_split {w : Int} {c : Canvas} {coords : List (Int × Int)}
    {xy : Int × Int} {rest : List (Int × Int)}
    (h : findUnmasked w c coords = some (xy, rest)) :
    ∃ pre, coords = pre ++ xy :: rest := by
  induction coords with
  | nil => cases h
  | cons a t ih =>
    rw [findUnmasked] at h
    by_cases hm : (c.get w a.1 a.2).isMasked = true
    · rw [if_pos hm] at h
      obtain ⟨pre, hp⟩ := ih h
      exact ⟨a :: pre, by rw [hp, List.cons_append]⟩
    · rw [if_neg hm] at h
      obtain ⟨h1, h2⟩ := Prod.mk.injEq .. ▸ Option.some_inj.mp h
      exact ⟨[], by rw [← h1, ← h2, List.nil_append]⟩

theorem drawBits_suffix (w : Int) (c : Canvas) (coords : List (Int × Int))
    (bits : List Bool) : (drawBits w c coords bits).2 <:+ coords := by
  induction bits generalizing c coords with
  | nil => exact List.suffix_refl _
  | cons b bs ih =>
    simp only [drawBits]
    cases hf : findUnmasked w c coords with
    | none => exact List.nil_suffix
    | some pr =>
      obtain ⟨xy, rest⟩ := pr
      obtain ⟨pre, hp⟩ := findUnmasked_split hf
      exact (ih _ rest).trans ⟨pre ++ [xy], by rw [hp, List.append_assoc, List.singleton_append]⟩

theorem drawBits_append_of_exhausted {w : Int} {c : Canvas} {coords : List (Int × Int)}
    {bits : List Bool} (h : (drawBits w c coords bits).2 = []) (extra : List Bool) :
    drawBits w c coords (bits ++ extra) = drawBits w c coords bits := by
  induction bits generalizing c coords with
  | nil =>
    simp only [drawBits] at h
    subst h
    cases extra with
    | nil => rfl
    | cons b bs => simp only [List.nil_append, drawBits, findUnmasked]
  | cons b bs ih =>
    simp only [List.cons_append, drawBits] at h ⊢
    cases hf : findUnmasked w c coords with
    | none =>
      rfl
    | some pr =>
      obtain ⟨xy, rest⟩ := pr
      rw [hf] at h
      exact ih h

theorem drawBits_preserves_unreached {w : Int} {bits : List Bool} {c : Canvas}
    {coords : List (Int × Int)} (hnd : (coords.map (cellOf w)).Nodup) :
    ∀ xy ∈ (drawBits w c coords bits).2,
      (drawBits w c coords bits).1.get w xy.1 xy.2 = c.get w xy.1 xy.2 := by
  induction bits generalizing c coords with
  | nil => intro xy _; rfl
  | cons b bs ih =>
    intro xy hxy
    simp only [drawBits] at hxy ⊢
    cases hf : findUnmasked w c coords with
    | none =>
      rw [hf] at hxy
    | some pr =>
      obtain ⟨xy0, rest⟩ := pr
      rw [hf] at hxy
      dsimp only at hxy ⊢
      obtain ⟨pre, hp⟩ := findUnmasked_split hf
      rw [hp, List.map_append, List.map_cons] at hnd
      have hrest := List.nodup_append.mp hnd
      have hnd2 : (rest.map (cellOf w)).Nodup := (List.nodup_cons.mp hrest.2.1).2
      have hni : cellOf w xy0 ∉ rest.map (cellOf w) := (List.nodup_cons.mp hrest.2.1).1
      have hmem : xy ∈ rest := (drawBits_suffix w _ rest bs).sublist.subset hxy
      rw [ih hnd2 xy hxy, get_putUnmasked]
      rw [if_neg ?_]
      intro hcell
      exact hni (by
        have : cellOf w xy0 = cellOf w xy := by
          rw [cellOf, cellOf, ← hcell.1, ← hcell.2]
        exact this ▸ List.mem_map_of_mem (cellOf w) hmem)

/-- C8: in `draw_codewords`, once the coordinate walk is exhausted (the
remaining coordinate list is empty) any further codewords are silently
discarded and the result is unchanged; and every coordinate of the walk
not reached by the placement (left in the remaining list) still holds its
original module — in the pipeline, `Unmasked(Light)` — provided the walk
addresses pairwise distinct cells. -/
theorem c8_draw_codewords_discard_preserve (w : Int) (c : Canvas)
    (coords : List (Int × Int)) (cw cw2 : List Nat) (half : Bool)
    (hnd : (coords.map (cellOf w)).Nodup) :
    ((drawCodewords w c cw false coords).2 = [] →
      drawCodewords w c (cw ++ cw2) false coords = drawCodewords w c cw false coords) ∧
    ∀ xy ∈ (drawCodewords w c cw half coords).2,
      (drawCodewords w c cw half coords).1.get w xy.1 xy.2 = c.get w xy.1 xy.2 := by
  constructor
  · intro hex
    rw [drawCodewords] at hex ⊢
    rw [codewordBits_false_append]
    exact drawBits_append_of_exhausted hex _
  · intro xy hxy
    rw [drawCodewords] at hxy ⊢
    exact drawBits_preserves_unreached hnd xy hxy

theorem c8_draw_codewords_discard_preserve_witness :
    (([((0:Int), (0:Int)), (1, 0)].map (cellOf 11)).Nodup) ∧
    (((drawCodewords 11 Canvas.empty [255] false [((0:Int), (0:Int)), (1, 0)]).2 = [] →
      drawCodewords 11 Canvas.empty ([255] ++ [7]) false [((0:Int), (0:Int)), (1, 0)] =
        drawCodewords 11 Canvas.empty [255] false [((0:Int), (0:Int)), (1, 0)]) ∧
    ∀ xy ∈ (drawCodewords 11 Canvas.empty [255] false [((0:Int), (0:Int)), (1, 0)]).2,
      (drawCodewords 11 Canvas.empty [255] false [((0:Int), (0:Int)), (1, 0)]).1.get 11 xy.1 xy.2 =
        Canvas.empty.get 11 xy.1 xy.2) :=
  ⟨by decide, c8_draw_codewords_discard_preserve 11 Canvas.empty
    [((0:Int), (0:Int)), (1, 0)] [255] [7] false (by decide)⟩


/-! ### C9: alignment drawing never touches the finder patterns -/

/-- The cells written by the three finder patterns of a normal version:
the three 8×8 corner boxes (the 7×7 pattern plus its light border). -/
def finderRegion (w x y : Int) : Prop :=
  (0 ≤ x ∧ x ≤ 7 ∧ 0 ≤ y ∧ y ≤ 7) ∨
    (w - 8 ≤ x ∧ x ≤ w - 1 ∧ 0 ≤ y ∧ y ≤ 7) ∨
    (0 ≤ x ∧ x ≤ 7 ∧ w - 8 ≤ y ∧ y ≤ w - 1)

theorem mem_alignInstrs {px py : Int} {i : Instr} (h : i ∈ alignInstrs px py) :
    ∃ di dj : Int, -2 ≤ di ∧ di ≤ 2 ∧ -2 ≤ dj ∧ dj ≤ 2 ∧
      i.x = px + di ∧ i.y = py + dj := by
  rw [alignInstrs, List.mem_flatMap] at h
  obtain ⟨j, hj, hi⟩ := h
  rw [List.mem_map] at hi
  obtain ⟨d, hd, he⟩ := hi
  rw [mem_intRange] at hj hd
  exact ⟨d, j, hd.1, hd.2, hj.1, hj.2, by rw [← he], by rw [← he]⟩

theorem alignAt_skip {c : Canvas} {w x y : Int} (hm : (c.get w x y).isMasked = true) :
    drawAlignmentPatternAt c w x y = c := by
  rw [drawAlignmentPatternAt, if_pos hm]

theorem alignAt_get_preserved {c : Canvas} {w px py x y : Int} (hw : 45 ≤ w)
    (hpx1 : 4 ≤ px) (hpx2 : px ≤ w - 5) (hpy1 : 4 ≤ py) (hpy2 : py ≤ w - 5)
    (d1 : 10 ≤ px ∨ 10 ≤ py) (d2 : px ≤ w - 11 ∨ 10 ≤ py) (d3 : 10 ≤ px ∨ py ≤ w - 11)
    (hr : finderRegion w x y) :
    (drawAlignmentPatternAt c w px py).get w x y = c.get w x y := by
  rw [drawAlignmentPatternAt]
  split_ifs with hm
  · rfl
  · apply get_putList_not_hit
    intro i hi hhit
    obtain ⟨di, dj, h1, h2, h3, h4, hx, hy⟩ := mem_alignInstrs hi
    obtain ⟨hh1, hh2⟩ := hhit
    rw [hx, normc_of_nonneg (by omega)] at hh1
    rw [hy, normc_of_nonneg (by omega)] at hh2
    rcases hr with ⟨e1, e2, e3, e4⟩ | ⟨e1, e2, e3, e4⟩ | ⟨e1, e2, e3, e4⟩ <;>
      rw [normc_of_nonneg (by omega)] at hh1 <;>
      rw [normc_of_nonneg (by omega)] at hh2 <;> omega

theorem align_inner_fold {w : Int} (hw : 45 ≤ w) (c0 : Canvas)
    (hm66 : (c0.get w 6 6).isMasked = true)
    (hm6b : (c0.get w 6 (w - 7)).isMasked = true)
    (hmb6 : (c0.get w (w - 7) 6).isMasked = true)
    (px : Int) (hpx : px = 6 ∨ (20 ≤ px ∧ px ≤ w - 11) ∨ px = w - 7)
    (qs : List Int) :
    (∀ q ∈ qs, q = 6 ∨ (20 ≤ q ∧ q ≤ w - 11) ∨ q = w - 7) →
    ∀ c, (∀ x y, finderRegion w x y → c.get w x y = c0.get w x y) →
    ∀ x y, finderRegion w x y →
      (qs.foldl (fun c py => drawAlignmentPatternAt c w px py) c).get w x y = c0.get w x y := by
  induction qs with
  | nil => intro _ c hc x y hr; exact hc x y hr
  | cons q qs ih =>
    intro hqs c hc x y hr
    rw [List.foldl_cons]
    refine ih (fun r hrr => hqs r (List.mem_cons_of_mem q hrr)) _ ?_ x y hr
    intro a b hab
    have hq := hqs q (List.mem_cons_self q qs)
    by_cases hskip : (px = 6 ∧ q = 6) ∨ (px = 6 ∧ q = w - 7) ∨ (px = w - 7 ∧ q = 6)
    · have hmp : (c.get w px q).isMasked = true := by
        rcases hskip with ⟨h1, h2⟩ | ⟨h1, h2⟩ | ⟨h1, h2⟩ <;> subst h1 <;> subst h2
        · rw [hc 6 6 (Or.inl (by omega))]; exact hm66
        · rw [hc 6 (w - 7) (Or.inr (Or.inr (by omega)))]; exact hm6b
        · rw [hc (w - 7) 6 (Or.inr (Or.inl (by omega)))]; exact hmb6
      rw [alignAt_skip hmp]
      exact hc a b hab
    · rw [alignAt_get_preserved hw (by omega) (by omega) (by omega) (by omega)
        (by omega) (by omega) (by omega) hab]
      exact hc a b hab

theorem align_outer_fold {w : Int} (hw : 45 ≤ w) (c0 : Canvas)
    (hm66 : (c0.get w 6 6).isMasked = true)
    (hm6b : (c0.get w 6 (w - 7)).isMasked = true)
    (hmb6 : (c0.get w (w - 7) 6).isMasked = true)
    (ps : List Int) (hps : ∀ p ∈ ps, p = 6 ∨ (20 ≤ p ∧ p ≤ w - 11) ∨ p = w - 7)
    (x y : Int) (hr : finderRegion w x y) :
    (ps.foldl (fun c px => ps.foldl (fun c py => drawAlignmentPatternAt c w px py) c)
      c0).get w x y = c0.get w x y := by
  suffices h : ∀ os : List Int, (∀ p ∈ os, p = 6 ∨ (20 ≤ p ∧ p ≤ w - 11) ∨ p = w - 7) →
      ∀ c : Canvas, (∀ a b, finderRegion w a b → c.get w a b = c0.get w a b) →
      ∀ a b, finderRegion w a b →
        (os.foldl (fun c px => ps.foldl (fun c py => drawAlignmentPatternAt c w px py) c)
          c).get w a b = c0.get w a b by
    exact h ps hps c0 (fun _ _ _ => rfl) x y hr
  intro os
  induction os with
  | nil => intro _ c hc a b hab; exact hc a b hab
  | cons p os ih =>
    intro hos c hc a b hab
    rw [List.foldl_cons]
    exact ih (fun r hrr => hos r (List.mem_cons_of_mem p hrr)) _
      (align_inner_fold hw c0 hm66 hm6b hmb6 p (hos p (List.mem_cons_self p os)) ps hps c hc)
      a b hab

theorem drawFinder_masked_pivots (a : Int) (w : Int) (hw : 45 ≤ w) (c : Canvas) :
    ((drawFinderPatterns (Version.normal a) w c).get w 6 6).isMasked = true ∧
    ((drawFinderPatterns (Version.normal a) w c).get w 6 (w - 7)).isMasked = true ∧
    ((drawFinderPatterns (Version.normal a) w c).get w (w - 7) 6).isMasked = true := by
  refine ⟨?_, ?_, ?_⟩
  · show ((((c.putList w (finderInstrs 3 3)).putList w (finderInstrs (-4) 3)).putList w
        (finderInstrs 3 (-4))).get w 6 6).isMasked = true
    apply isMasked_get_putList
    apply isMasked_get_putList
    exact isMasked_get_putList_of_hit
      (show Instr.mk (3 + 3) (3 + 3) (finderColor 3 3) ∈ finderInstrs 3 3 by decide)
      ⟨by norm_num, by norm_num⟩
  · show ((((c.putList w (finderInstrs 3 3)).putList w (finderInstrs (-4) 3)).putList w
        (finderInstrs 3 (-4))).get w 6 (w - 7)).isMasked = true
    exact isMasked_get_putList_of_hit
      (show Instr.mk (3 + 3) (-4 + -3) (finderColor 3 (-3)) ∈ finderInstrs 3 (-4) by decide)
      ⟨by norm_num, by
        show normc w (-4 + -3) = normc w (w - 7)
        rw [normc_of_neg (by norm_num), normc_of_nonneg (by omega)]
        ring⟩
  · show ((((c.putList w (finderInstrs 3 3)).putList w (finderInstrs (-4) 3)).putList w
        (finderInstrs 3 (-4))).get w (w - 7) 6).isMasked = true
    apply isMasked_get_putList
    exact isMasked_get_putList_of_hit
      (show Instr.mk (-4 + -3) (3 + 3) (finderColor (-3) 3) ∈ finderInstrs (-4) 3 by decide)
      ⟨by
        show normc w (-4 + -3) = normc w (w - 7)
        rw [normc_of_neg (by norm_num), normc_of_nonneg (by omega)]
        ring, by norm_num⟩

theorem alignmentPositions_cases (a : Int) (h7 : 7 ≤ a) (h40 : a ≤ 40) :
    ∀ p ∈ alignmentPatternPositions.getD (a - 7).toNat [],
      p = 6 ∨ (20 ≤ p ∧ p ≤ 4 * a + 6) ∨ p = 4 * a + 10 := by
  have ha : a = 7 ∨ a = 8 ∨ a = 9 ∨ a = 10 ∨ a = 11 ∨ a = 12 ∨ a = 13 ∨ a = 14 ∨ a = 15 ∨ a = 16 ∨ a = 17 ∨ a = 18 ∨ a = 19 ∨ a = 20 ∨ a = 21 ∨ a = 22 ∨ a = 23 ∨ a = 24 ∨ a = 25 ∨ a = 26 ∨ a = 27 ∨ a = 28 ∨ a = 29 ∨ a = 30 ∨ a = 31 ∨ a = 32 ∨ a = 33 ∨ a = 34 ∨ a = 35 ∨ a = 36 ∨ a = 37 ∨ a = 38 ∨ a = 39 ∨ a = 40 := by omega
  rcases ha with rfl | rfl | rfl | rfl | rfl | rfl | rfl | rfl | rfl | rfl | rfl | rfl | rfl | rfl | rfl | rfl | rfl | rfl | rfl | rfl | rfl | rfl | rfl | rfl | rfl | rfl | rfl | rfl | rfl | rfl | rfl | rfl | rfl | rfl <;> decide

/-- C9: if the module at the pivot (x, y) is already Masked,
`draw_alignment_pattern_at` returns the canvas unchanged; consequently for
Normal versions 7..40 the alignment-pattern pass never changes any module
of the three finder-pattern regions drawn by `draw_finder_patterns`
(pivots falling inside a finder pattern are masked there and skipped, and
every other alignment box is disjoint from the finder regions). -/
theorem c9_alignment_preserves_finders (c : Canvas) (w x y : Int)
    (hm : (c.get w x y).isMasked = true)
    (a : Int) (h7 : 7 ≤ a) (h40 : a ≤ 40) (c1 : Canvas) (x1 y1 : Int)
    (hr : finderRegion (4 * a + 17) x1 y1) :
    drawAlignmentPatternAt c w x y = c ∧
    (drawAlignmentPatterns (Version.normal a) (4 * a + 17)
        (drawFinderPatterns (Version.normal a) (4 * a + 17) c1)).get (4 * a + 17) x1 y1 =
      (drawFinderPatterns (Version.normal a) (4 * a + 17) c1).get (4 * a + 17) x1 y1 := by
  refine ⟨alignAt_skip hm, ?_⟩
  obtain ⟨hm66, hm6b, hmb6⟩ := drawFinder_masked_pivots a (4 * a + 17) (by omega) c1
  have key := align_outer_fold (show (45:Int) ≤ 4 * a + 17 by omega)
    (drawFinderPatterns (Version.normal a) (4 * a + 17) c1) hm66 hm6b hmb6
    (alignmentPatternPositions.getD (a - 7).toNat [])
    (by
      intro p hp
      rcases alignmentPositions_cases a h7 h40 p hp with h | h | h
      · exact Or.inl h
      · exact Or.inr (Or.inl ⟨h.1, by omega⟩)
      · exact Or.inr (Or.inr (by omega)))
    x1 y1 hr
  simp only [drawAlignmentPatterns]
  rw [if_neg (by omega), if_neg (by omega)]
  exact key

theorem c9_alignment_preserves_finders_witness :
    ((((Canvas.empty.put 21 5 5 Color.dark).get 21 5 5).isMasked = true) ∧
      (7:Int) ≤ 7 ∧ (7:Int) ≤ 40 ∧ finderRegion (4 * 7 + 17) 0 0) ∧
    (drawAlignmentPatternAt (Canvas.empty.put 21 5 5 Color.dark) 21 5 5 =
        Canvas.empty.put 21 5 5 Color.dark ∧
      (drawAlignmentPatterns (Version.normal 7) (4 * 7 + 17)
          (drawFinderPatterns (Version.normal 7) (4 * 7 + 17) Canvas.empty)).get
            (4 * 7 + 17) 0 0 =
        (drawFinderPatterns (Version.normal 7) (4 * 7 + 17) Canvas.empty).get
          (4 * 7 + 17) 0 0) :=
  ⟨⟨by decide, by norm_num, by norm_num, Or.inl (by norm_num)⟩,
    c9_alignment_preserves_finders (Canvas.empty.put 21 5 5 Color.dark) 21 5 5 (by decide)
      7 (by norm_num) (by norm_num) Canvas.empty 0 0 (Or.inl (by norm_num))⟩


/-! ### C5: applying a mask twice -/

/-- The put sequence of `Canvas::draw_format_info_patterns_with_number`,
as a single instruction list. -/
def fiInstrs (ver : Version) (fi : Nat) : List Instr :=
  match ver with
  | Version.micro _ => drawNumberInstrs fi 16384 Color.dark Color.light formatInfoCoordsMicroQr
  | Version.normal _ =>
      drawNumberInstrs fi 16384 Color.dark Color.light formatInfoCoordsQrMain ++
        (drawNumberInstrs fi 16384 Color.dark Color.light formatInfoCoordsQrSide ++
          [Instr.mk 8 (-8) Color.dark])

theorem drawFormat_putList (ver : Version) (w : Int) (fi : Nat) (c : Canvas) :
    drawFormatInfoPatternsWithNumber ver w fi c = c.putList w (fiInstrs ver fi) := by
  cases ver with
  | micro a => rfl
  | normal a =>
    show _ = c.putList w (_ ++ (_ ++ _))
    rw [putList_append, putList_append]
    rfl

theorem intRange_nodup (a b : Int) : (intRange a b).Nodup :=
  List.Nodup.map (fun k1 k2 h => Int.ofNat.inj (add_left_cancel h)) (List.nodup_range _)

theorem mem_maskCoords {w x y : Int} :
    (x, y) ∈ maskCoords w ↔ (0 ≤ x ∧ x < w) ∧ (0 ≤ y ∧ y < w) := by
  rw [maskCoords, List.mem_flatMap]
  constructor
  · rintro ⟨a, ha, hb⟩
    rw [List.mem_map] at hb
    obtain ⟨b, hb2, he⟩ := hb
    obtain ⟨rfl, rfl⟩ := Prod.mk.injEq .. ▸ he
    rw [mem_intRange] at ha hb2
    exact ⟨⟨ha.1, by omega⟩, hb2.1, by omega⟩
  · rintro ⟨⟨h1, h2⟩, h3, h4⟩
    exact ⟨x, mem_intRange.mpr ⟨h1, by omega⟩,
      List.mem_map.mpr ⟨y, mem_intRange.mpr ⟨h3, by omega⟩, rfl⟩⟩

theorem maskCoords_nodup (w : Int) : (maskCoords w).Nodup :=
  List.Nodup.product (intRange_nodup 0 (w - 1)) (intRange_nodup 0 (w - 1))

theorem foldl_maskPut_get (w : Int) (f : Int → Int → Bool) (L : List (Int × Int)) :
    ∀ (c : Canvas) (x y : Int), 0 ≤ x → x < w → 0 ≤ y → y < w →
    (∀ xy ∈ L, 0 ≤ xy.1 ∧ xy.1 < w ∧ 0 ≤ xy.2 ∧ xy.2 < w) → L.Nodup →
    (L.foldl (fun c xy => c.put w xy.1 xy.2 ((c.get w xy.1 xy.2).mask (f xy.1 xy.2))) c).get
        w x y =
      if (x, y) ∈ L then Module.masked ((c.get w x y).mask (f x y)) else c.get w x y := by
  induction L with
  | nil =>
    intro c x y _ _ _ _ _ _
    rw [List.foldl_nil, if_neg (List.not_mem_nil _)]
  | cons a L ih =>
    intro c x y hx1 hx2 hy1 hy2 hL hnd
    have ha := hL a (List.mem_cons_self a L)
    rw [List.foldl_cons,
      ih _ x y hx1 hx2 hy1 hy2 (fun xy h => hL xy (List.mem_cons_of_mem a h))
        (List.nodup_cons.mp hnd).2]
    by_cases hmem : (x, y) ∈ L
    · rw [if_pos hmem, if_pos (List.mem_cons_of_mem a hmem)]
      have hne : ¬ (x = a.1 ∧ y = a.2) := by
        intro hxy
        exact (List.nodup_cons.mp hnd).1
          ((show (x, y) = a from Prod.ext_iff.mpr hxy) ▸ hmem)
      rw [get_put, normc_of_nonneg hx1, normc_of_nonneg hy1, normc_of_nonneg ha.1,
        normc_of_nonneg ha.2.2.1, if_neg hne]
    · by_cases hxya : (x, y) = a
      · subst hxya
        rw [if_neg hmem, if_pos (List.mem_cons_self _ L)]
        rw [get_put, normc_of_nonneg hx1, normc_of_nonneg hy1, if_pos ⟨rfl, rfl⟩]
      · rw [if_neg hmem, if_neg (by
          intro hm
          rcases List.mem_cons.mp hm with h | h
          · exact hxya h
          · exact hmem h)]
        rw [get_put, normc_of_nonneg hx1, normc_of_nonneg hy1, normc_of_nonneg ha.1,
          normc_of_nonneg ha.2.2.1,
          if_neg (fun hxy => hxya (show (x, y) = a from Prod.ext_iff.mpr hxy))]

theorem applyMaskLoop_get {c : Canvas} {w : Int} {f : Int → Int → Bool} {x y : Int}
    (hx1 : 0 ≤ x) (hx2 : x < w) (hy1 : 0 ≤ y) (hy2 : y < w) :
    (applyMaskLoop c w f).get w x y = Module.masked ((c.get w x y).mask (f x y)) := by
  rw [applyMaskLoop, foldl_maskPut_get w f (maskCoords w) c x y hx1 hx2 hy1 hy2
    (fun xy h => by
      obtain ⟨a, b⟩ := xy
      have hm := mem_maskCoords.mp h
      exact ⟨hm.1.1, hm.1.2, hm.2.1, hm.2.2⟩)
    (maskCoords_nodup w)]
  rw [if_pos (mem_maskCoords.mpr ⟨⟨hx1, hx2⟩, hy1, hy2⟩)]

/-- The canvas of the C5 counterexample: all functional patterns of a
Normal 1 symbol. -/
def c5Base : Canvas := drawAllFunctionalPatterns (Version.normal 1) 21 Canvas.empty

/-- The format word drawn by `apply_mask` for Normal versions, L, pattern
Checkerboard. -/
def c5Fi : Nat :=
  formatInfosQr.getD ((EcLevel.L.code ^^^ 1) <<< 3 ||| MaskPattern.checkerboard.code) 0

/-- The canvas after one `apply_mask(Checkerboard)` on `c5Base`. -/
def c5Once : Canvas :=
  drawFormatInfoPatternsWithNumber (Version.normal 1) 21 c5Fi
    (applyMaskLoop c5Base 21 (maskFunction MaskPattern.checkerboard))

/-- The canvas after two `apply_mask(Checkerboard)` on `c5Base`. -/
def c5Twice : Canvas :=
  drawFormatInfoPatternsWithNumber (Version.normal 1) 21 c5Fi
    (applyMaskLoop c5Once 21 (maskFunction MaskPattern.checkerboard))

/-- C5 (counterexample): on the functional-patterns-only Normal 1 canvas,
the module at (9, 9) is Unmasked(Light); after applying the Checkerboard
mask twice its color is Dark, not the original Light: the masking loop
re-stores every module as `Masked`, so the second application finds no
`Unmasked` module left and inverts nothing back. -/
theorem c5_counterexample :
    ¬ (∀ c2 : Canvas,
        (applyMask (Version.normal 1) 21 EcLevel.L MaskPattern.checkerboard c5Base).bind
            (applyMask (Version.normal 1) 21 EcLevel.L MaskPattern.checkerboard) = some c2 →
        (c5Base.get 21 9 9).isMasked = false →
        (c2.get 21 9 9).color = (c5Base.get 21 9 9).color) := by
  intro h
  have h9 : c5Base.get 21 9 9 = Module.unmasked Color.light := by decide
  have hcx := h c5Twice rfl (by rw [h9]; rfl)
  have hnh : ∀ i ∈ fiInstrs (Version.normal 1) c5Fi, ¬ i.hits 21 9 9 := by decide
  have h1 : c5Once.get 21 9 9 = Module.masked Color.dark := by
    unfold c5Once
    rw [drawFormat_putList, get_putList_not_hit hnh,
      applyMaskLoop_get (by norm_num) (by norm_num) (by norm_num) (by norm_num), h9]
    decide
  have h2 : c5Twice.get 21 9 9 = Module.masked Color.dark := by
    unfold c5Twice
    rw [drawFormat_putList, get_putList_not_hit hnh,
      applyMaskLoop_get (by norm_num) (by norm_num) (by norm_num) (by norm_num), h1]
    rfl
  rw [h2, h9] at hcx
  exact absurd hcx (by decide)

/-- C5 (amended): `apply_mask` is idempotent on the visible grid rather
than an involution on colors: a second application with the same pattern
changes no module of the canvas (after the first application every module
is `Masked`, `Module::mask` is the identity on `Masked` modules, and the
format info is redrawn identically). -/
theorem c5_apply_mask_amended (ver : Version) (w : Int) (ec : EcLevel) (p : MaskPattern)
    (c c1 : Canvas) (h1 : applyMask ver w ec p c = some c1) (x y : Int)
    (hx1 : 0 ≤ x) (hx2 : x < w) (hy1 : 0 ≤ y) (hy2 : y < w) :
    ∃ c2, applyMask ver w ec p c1 = some c2 ∧ c2.get w x y = c1.get w x y := by
  unfold applyMask drawFormatInfoPatterns at h1
  obtain ⟨fi, hfi, hc1⟩ := Option.map_eq_some'.mp h1
  refine ⟨drawFormatInfoPatternsWithNumber ver w fi (applyMaskLoop c1 w (maskFunction p)),
    ?_, ?_⟩
  · unfold applyMask drawFormatInfoPatterns
    rw [hfi, Option.map_some']
  · subst hc1
    rw [drawFormat_putList, drawFormat_putList, get_putList, get_putList]
    cases hlh : lastHit w x y (fiInstrs ver fi) with
    | some j => rfl
    | none =>
      have hc1get : (Canvas.putList (applyMaskLoop c w (maskFunction p)) w
          (fiInstrs ver fi)).get w x y = (applyMaskLoop c w (maskFunction p)).get w x y := by
        rw [get_putList, hlh]
      show (applyMaskLoop (Canvas.putList (applyMaskLoop c w (maskFunction p)) w
          (fiInstrs ver fi)) w (maskFunction p)).get w x y = _
      rw [applyMaskLoop_get hx1 hx2 hy1 hy2, hc1get,
        applyMaskLoop_get hx1 hx2 hy1 hy2]
      rfl

theorem c5_apply_mask_amended_witness :
    (applyMask (Version.micro 1) 11 EcLevel.L MaskPattern.horizontalLines Canvas.empty =
        some (drawFormatInfoPatternsWithNumber (Version.micro 1) 11
          (formatInfosMicroQr.getD (0 <<< 2 ||| 0) 0)
          (applyMaskLoop Canvas.empty 11 (maskFunction MaskPattern.horizontalLines))) ∧
      (0:Int) ≤ 0 ∧ (0:Int) < 11) ∧
    (∃ c2, applyMask (Version.micro 1) 11 EcLevel.L MaskPattern.horizontalLines
        (drawFormatInfoPatternsWithNumber (Version.micro 1) 11
          (formatInfosMicroQr.getD (0 <<< 2 ||| 0) 0)
          (applyMaskLoop Canvas.empty 11 (maskFunction MaskPattern.horizontalLines))) =
          some c2 ∧
      c2.get 11 0 0 =
        (drawFormatInfoPatternsWithNumber (Version.micro 1) 11
          (formatInfosMicroQr.getD (0 <<< 2 ||| 0) 0)
          (applyMaskLoop Canvas.empty 11 (maskFunction MaskPattern.horizontalLines))).get
          11 0 0) :=
  ⟨⟨rfl, by norm_num, by norm_num⟩,
    c5_apply_mask_amended (Version.micro 1) 11 EcLevel.L MaskPattern.horizontalLines
      Canvas.empty _ rfl 0 0 (by norm_num) (by norm_num) (by norm_num) (by norm_num)⟩


/-! ### C10: the finder penalty never underflows -/

theorem intRange_split {a b c : Int} (h1 : a - 1 ≤ b) (h2 : b ≤ c) :
    intRange a c = intRange a b ++ intRange (b + 1) c := by
  unfold intRange
  rw [show (c + 1 - a).toNat = (b + 1 - a).toNat + (c - b).toNat from by omega,
    List.range_add, List.map_append, List.map_map,
    show c + 1 - (b + 1) = c - b from by ring]
  congr 1
  apply List.map_congr_left
  intro k hk
  rw [List.mem_range] at hk
  simp only [Function.comp_apply, Int.ofNat_eq_coe]
  push_cast
  omega

theorem intRange_single (a : Int) : intRange a a = [a] := by
  unfold intRange
  rw [show (a + 1 - a).toNat = 1 from by omega,
    show List.range 1 = [0] from rfl]
  simp

theorem intRange_three (a : Int) : intRange a (a + 2) = [a, a + 1, a + 2] := by
  unfold intRange
  rw [show (a + 2 + 1 - a).toNat = 3 from by omega,
    show List.range 3 = [0, 1, 2] from by decide]
  simp only [List.map_cons, List.map_nil]
  norm_num

theorem intRange_seven (a : Int) : intRange a (a + 6) =
    [a, a + 1, a + 2, a + 3, a + 4, a + 5, a + 6] := by
  unfold intRange
  rw [show (a + 6 + 1 - a).toNat = 7 from by omega,
    show List.range 7 = [0, 1, 2, 3, 4, 5, 6] from by decide]
  simp only [List.map_cons, List.map_nil]
  norm_num

theorem finderColor_symm (a b : Int) : finderColor a b = finderColor b a := by
  unfold finderColor
  split_ifs <;> first | rfl | (exfalso; omega)

theorem mem_finderInstrs {x0 y0 : Int} {i : Instr} (h : i ∈ finderInstrs x0 y0) :
    ∃ di dj : Int,
      (if 0 ≤ x0 then (-3:Int) else -4) ≤ di ∧ di ≤ (if 0 ≤ x0 then (4:Int) else 3) ∧
      (if 0 ≤ y0 then (-3:Int) else -4) ≤ dj ∧ dj ≤ (if 0 ≤ y0 then (4:Int) else 3) ∧
      i = Instr.mk (x0 + di) (y0 + dj) (finderColor di dj) := by
  rw [show finderInstrs x0 y0 =
      (intRange (if 0 ≤ y0 then (-3:Int) else -4) (if 0 ≤ y0 then (4:Int) else 3)).flatMap
        (fun j => (intRange (if 0 ≤ x0 then (-3:Int) else -4)
            (if 0 ≤ x0 then (4:Int) else 3)).map
          fun i => Instr.mk (x0 + i) (y0 + j) (finderColor i j)) from rfl,
    List.mem_flatMap] at h
  obtain ⟨j, hj, hi⟩ := h
  rw [List.mem_map] at hi
  obtain ⟨d, hd, he⟩ := hi
  rw [mem_intRange] at hj hd
  exact ⟨d, j, hd.1, hd.2, hj.1, hj.2, he.symm⟩

theorem finderInstr_mem (x0 y0 di dj : Int)
    (h1 : (if 0 ≤ x0 then (-3:Int) else -4) ≤ di)
    (h2 : di ≤ (if 0 ≤ x0 then (4:Int) else 3))
    (h3 : (if 0 ≤ y0 then (-3:Int) else -4) ≤ dj)
    (h4 : dj ≤ (if 0 ≤ y0 then (4:Int) else 3)) :
    Instr.mk (x0 + di) (y0 + dj) (finderColor di dj) ∈ finderInstrs x0 y0 := by
  rw [show finderInstrs x0 y0 =
      (intRange (if 0 ≤ y0 then (-3:Int) else -4) (if 0 ≤ y0 then (4:Int) else 3)).flatMap
        (fun j => (intRange (if 0 ≤ x0 then (-3:Int) else -4)
            (if 0 ≤ x0 then (4:Int) else 3)).map
          fun i => Instr.mk (x0 + i) (y0 + j) (finderColor i j)) from rfl]
  exact List.mem_flatMap.mpr ⟨dj, mem_intRange.mpr ⟨h3, h4⟩,
    List.mem_map.mpr ⟨di, mem_intRange.mpr ⟨h1, h2⟩, rfl⟩⟩

theorem finderInstrs_bl_no_hit {w x y : Int} (hw : 21 ≤ w) (hy1 : 0 ≤ y) (hy2 : y ≤ 7) :
    ∀ i ∈ finderInstrs 3 (-4), ¬ i.hits w x y := by
  intro i hi hhit
  obtain ⟨di, dj, h1, h2, h3, h4, he⟩ := mem_finderInstrs hi
  norm_num at h1 h2 h3 h4
  subst he
  obtain ⟨hh1, hh2⟩ := hhit
  simp only at hh1 hh2
  rw [normc_of_neg (by omega), normc_of_nonneg hy1] at hh2
  omega

theorem finderInstrs_tr_no_hit {w x y : Int} (hw : 21 ≤ w) (hx1 : 0 ≤ x) (hx2 : x ≤ 7) :
    ∀ i ∈ finderInstrs (-4) 3, ¬ i.hits w x y := by
  intro i hi hhit
  obtain ⟨di, dj, h1, h2, h3, h4, he⟩ := mem_finderInstrs hi
  norm_num at h1 h2 h3 h4
  subst he
  obtain ⟨hh1, hh2⟩ := hhit
  simp only at hh1 hh2
  rw [normc_of_neg (by omega), normc_of_nonneg hx1] at hh1
  omega

/-- The color stored at a finder-region cell by `draw_finder_patterns`:
the top-left, top-right and bottom-left 7×7 patterns with their light
borders, addressed by offsets from the pattern centers (3, 3),
(w − 4, 3) and (3, w − 4). -/
def finderRegionColor (w x y : Int) : Color :=
  if x ≤ 7 ∧ y ≤ 7 then finderColor (x - 3) (y - 3)
  else if w - 8 ≤ x then finderColor (x - (w - 4)) (y - 3)
  else finderColor (x - 3) (y - (w - 4))

theorem drawFinder_region_color (a : Int) {w : Int} (hw : 21 ≤ w) (c : Canvas) (x y : Int)
    (hr : finderRegion w x y) :
    ((drawFinderPatterns (Version.normal a) w c).get w x y).color = finderRegionColor w x y := by
  show ((((c.putList w (finderInstrs 3 3)).putList w (finderInstrs (-4) 3)).putList w
      (finderInstrs 3 (-4))).get w x y).color = _
  rcases hr with ⟨e1, e2, e3, e4⟩ | ⟨e1, e2, e3, e4⟩ | ⟨e1, e2, e3, e4⟩
  · -- top-left box
    rw [get_putList_not_hit (finderInstrs_bl_no_hit hw e3 e4),
      get_putList_not_hit (finderInstrs_tr_no_hit hw e1 e2), get_putList]
    obtain ⟨j, hlh, hjmem, hjhits⟩ := lastHit_of_hit
      (finderInstr_mem 3 3 (x - 3) (y - 3) (by norm_num; omega) (by norm_num; omega)
        (by norm_num; omega) (by norm_num; omega))
      ⟨by rw [show (3:Int) + (x - 3) = x from by ring],
       by rw [show (3:Int) + (y - 3) = y from by ring]⟩
    rw [hlh]
    obtain ⟨di, dj, h1, h2, h3, h4, he⟩ := mem_finderInstrs hjmem
    norm_num at h1 h2 h3 h4
    subst he
    obtain ⟨hh1, hh2⟩ := hjhits
    simp only at hh1 hh2
    rw [normc_of_nonneg (by omega), normc_of_nonneg e1] at hh1
    rw [normc_of_nonneg (by omega), normc_of_nonneg e3] at hh2
    rw [finderRegionColor, if_pos ⟨e2, e4⟩]
    show finderColor di dj = _
    rw [show di = x - 3 from by omega, show dj = y - 3 from by omega]
  · -- top-right box
    rw [get_putList_not_hit (finderInstrs_bl_no_hit hw e3 e4), get_putList]
    obtain ⟨j, hlh, hjmem, hjhits⟩ := lastHit_of_hit
      (finderInstr_mem (-4) 3 (x - w + 4) (y - 3) (by norm_num; omega) (by norm_num; omega)
        (by norm_num; omega) (by norm_num; omega))
      ⟨by
        show normc w (-4 + (x - w + 4)) = normc w x
        rw [normc_of_neg (by omega), normc_of_nonneg (by omega)]
        ring,
       by rw [show (3:Int) + (y - 3) = y from by ring]⟩
    rw [hlh]
    obtain ⟨di, dj, h1, h2, h3, h4, he⟩ := mem_finderInstrs hjmem
    norm_num at h1 h2 h3 h4
    subst he
    obtain ⟨hh1, hh2⟩ := hjhits
    simp only at hh1 hh2
    rw [normc_of_neg (by omega), normc_of_nonneg (by omega)] at hh1
    rw [normc_of_nonneg (by omega), normc_of_nonneg e3] at hh2
    rw [finderRegionColor, if_neg (by omega), if_pos (by omega)]
    show finderColor di dj = _
    rw [show di = x - (w - 4) from by omega, show dj = y - 3 from by omega]
  · -- bottom-left box
    rw [get_putList]
    obtain ⟨j, hlh, hjmem, hjhits⟩ := lastHit_of_hit
      (finderInstr_mem 3 (-4) (x - 3) (y - w + 4) (by norm_num; omega) (by norm_num; omega)
        (by norm_num; omega) (by norm_num; omega))
      ⟨by rw [show (3:Int) + (x - 3) = x from by ring],
       by
        show normc w (-4 + (y - w + 4)) = normc w y
        rw [normc_of_neg (by omega), normc_of_nonneg (by omega)]
        ring⟩
    rw [hlh]
    obtain ⟨di, dj, h1, h2, h3, h4, he⟩ := mem_finderInstrs hjmem
    norm_num at h1 h2 h3 h4
    subst he
    obtain ⟨hh1, hh2⟩ := hjhits
    simp only at hh1 hh2
    rw [normc_of_nonneg (by omega), normc_of_nonneg e1] at hh1
    rw [normc_of_neg (by omega), normc_of_nonneg (by omega)] at hh2
    rw [finderRegionColor, if_neg (by omega), if_neg (by omega)]
    show finderColor di dj = _
    rw [show di = x - 3 from by omega, show dj = y - (w - 4) from by omega]


theorem pattern_row {c : Canvas} {w : Int} {o : Bool} {i j d : Int}
    (hd1 : -1 ≤ d) (hd2 : d ≤ 1)
    (hcol : ∀ t : Int, 0 ≤ t → t ≤ 6 → lineColor c w o i (j + t) = finderColor (t - 3) d) :
    (intRange j (j + 6)).map (lineColor c w o i) = finderPattern := by
  rw [intRange_seven]
  simp only [List.map_cons, List.map_nil]
  rw [show lineColor c w o i j = finderColor (0 - 3) d from by
      have h := hcol 0 (by norm_num) (by norm_num)
      rwa [add_zero] at h,
    hcol 1 (by norm_num) (by norm_num), hcol 2 (by norm_num) (by norm_num),
    hcol 3 (by norm_num) (by norm_num), hcol 4 (by norm_num) (by norm_num),
    hcol 5 (by norm_num) (by norm_num), hcol 6 (by norm_num) (by norm_num)]
  have hd : d = -1 ∨ d = 0 ∨ d = 1 := by omega
  rcases hd with rfl | rfl | rfl <;> decide

theorem scores_at_left {c : Canvas} {w : Int} {o : Bool} {i : Int}
    (hpat : (intRange 0 (0 + 6)).map (lineColor c w o i) = finderPattern) :
    finderScoresAt c w o i 0 = true := by
  rw [finderScoresAt]
  have hb : ((intRange (0 - 4) (0 - 1)).any fun k => finderCheck c w o i k) = false := by
    rw [List.any_eq_false]
    intro k hk
    rw [mem_intRange] at hk
    rw [finderCheck, decide_eq_false_iff_not.mpr (show ¬ (0 ≤ k) by omega),
      Bool.false_and, Bool.false_and]
    exact Bool.false_ne_true
  rw [hpat, hb]
  simp

theorem scores_at_right {c : Canvas} {w : Int} {o : Bool} {i : Int} (hw : 21 ≤ w)
    (hpat : (intRange (w - 7) (w - 7 + 6)).map (lineColor c w o i) = finderPattern) :
    finderScoresAt c w o i (w - 7) = true := by
  rw [finderScoresAt]
  have ha : ((intRange (w - 7 + 7) (w - 7 + 10)).any fun k => finderCheck c w o i k) =
      false := by
    rw [List.any_eq_false]
    intro k hk
    rw [mem_intRange] at hk
    rw [finderCheck, decide_eq_false_iff_not.mpr (show ¬ (k < w) by omega),
      Bool.and_false, Bool.false_and]
    exact Bool.false_ne_true
  rw [hpat, ha]
  simp

theorem rowSum_ge_one {c : Canvas} {w : Int} {o : Bool} {i : Int} (hw : 21 ≤ w)
    (h0 : finderScoresAt c w o i 0 = true) :
    40 ≤ ((intRange 0 (w - 7)).map fun j =>
        if finderScoresAt c w o i j then (40:Nat) else 0).sum := by
  rw [intRange_split (show (0:Int) - 1 ≤ 0 from by norm_num) (show (0:Int) ≤ w - 7 from by omega),
    intRange_single, List.map_append, List.sum_append, List.map_singleton,
    List.sum_singleton, if_pos h0]
  omega

theorem rowSum_ge_two {c : Canvas} {w : Int} {o : Bool} {i : Int} (hw : 21 ≤ w)
    (h0 : finderScoresAt c w o i 0 = true)
    (h1 : finderScoresAt c w o i (w - 7) = true) :
    80 ≤ ((intRange 0 (w - 7)).map fun j =>
        if finderScoresAt c w o i j then (40:Nat) else 0).sum := by
  rw [intRange_split (show (0:Int) - 1 ≤ 0 from by norm_num) (show (0:Int) ≤ w - 7 from by omega),
    show (0:Int) + 1 = 1 from by norm_num,
    intRange_split (show (1:Int) - 1 ≤ w - 8 from by omega) (show w - 8 ≤ w - 7 from by omega),
    show w - 8 + 1 = w - 7 from by ring, intRange_single, intRange_single,
    List.map_append, List.map_append, List.sum_append, List.sum_append,
    List.map_singleton, List.map_singleton, List.sum_singleton, List.sum_singleton,
    if_pos h0, if_pos h1]
  omega

theorem finderRaw_ge {c : Canvas} {w : Int} (hw : 21 ≤ w) (o : Bool)
    (hrow1 : ∀ i : Int, 2 ≤ i → i ≤ 4 → finderScoresAt c w o i 0 = true)
    (hrow2 : ∀ i : Int, 2 ≤ i → i ≤ 4 → finderScoresAt c w o i (w - 7) = true)
    (hrow3 : ∀ i : Int, w - 5 ≤ i → i ≤ w - 3 → finderScoresAt c w o i 0 = true) :
    360 ≤ computeFinderPenaltyRaw c w o := by
  rw [computeFinderPenaltyRaw,
    intRange_split (show (0:Int) - 1 ≤ 1 from by norm_num) (show (1:Int) ≤ w - 1 from by omega),
    intRange_split (show (1:Int) + 1 - 1 ≤ 4 from by norm_num) (show (4:Int) ≤ w - 1 from by omega),
    intRange_split (show (4:Int) + 1 - 1 ≤ w - 6 from by omega)
      (show w - 6 ≤ w - 1 from by omega),
    intRange_split (show w - 6 + 1 - 1 ≤ w - 3 from by omega)
      (show w - 3 ≤ w - 1 from by omega),
    show (1:Int) + 1 = 2 from by norm_num,
    show (4:Int) + 1 = 5 from by norm_num,
    show w - 6 + 1 = w - 5 from by ring,
    show w - 3 + 1 = w - 2 from by ring,
    show intRange 2 4 = [2, 3, 4] from by decide,
    show w - 3 = w - 5 + 2 from by ring, intRange_three]
  simp only [List.map_append, List.sum_append, List.map_cons, List.map_nil, List.sum_cons,
    List.sum_nil]
  have g2 := rowSum_ge_two hw (hrow1 2 (by norm_num) (by norm_num))
    (hrow2 2 (by norm_num) (by norm_num))
  have g3 := rowSum_ge_two hw (hrow1 3 (by norm_num) (by norm_num))
    (hrow2 3 (by norm_num) (by norm_num))
  have g4 := rowSum_ge_two hw (hrow1 4 (by norm_num) (by norm_num))
    (hrow2 4 (by norm_num) (by norm_num))
  have g5 := rowSum_ge_one hw (hrow3 (w - 5) (by omega) (by omega))
  have g6 := rowSum_ge_one hw (hrow3 (w - 5 + 1) (by omega) (by omega))
  have g7 := rowSum_ge_one hw (hrow3 (w - 5 + 2) (by omega) (by omega))
  omega

/-- C10: on a canvas whose three finder-pattern regions hold the colors
drawn by `draw_finder_patterns` (as in the encoding pipeline; see
`drawFinder_region_color`), `compute_finder_penalty_score` accumulates at
least 360 points in each orientation before the constant 360 is
subtracted, so the `u16` subtraction `total_score - 360` cannot
underflow: each of the rows (and columns) 2, 3, 4 shows the 1:1:3:1:1
pattern at both the left and the right border with an out-of-canvas
window beside it, and rows (and columns) w−5..w−3 show it at the left
border, giving at least 9 awards of 40. -/
theorem c10_finder_penalty_no_underflow (w : Int) (hw : 21 ≤ w) (c : Canvas)
    (hc : ∀ x y, finderRegion w x y → (c.get w x y).color = finderRegionColor w x y) :
    360 ≤ computeFinderPenaltyRaw c w true ∧ 360 ≤ computeFinderPenaltyRaw c w false := by
  constructor
  · refine finderRaw_ge hw true (fun i h2 h4 => ?_) (fun i h2 h4 => ?_) (fun i h2 h4 => ?_)
    · refine scores_at_left (pattern_row (show -1 ≤ i - 3 from by omega)
        (show i - 3 ≤ 1 from by omega) (fun t ht1 ht2 => ?_))
      rw [lineColor, if_pos rfl, show (0:Int) + t = t from by ring,
        hc t i (Or.inl (by omega)), finderRegionColor, if_pos (by omega)]
    · refine scores_at_right hw (pattern_row (show -1 ≤ i - 3 from by omega)
        (show i - 3 ≤ 1 from by omega) (fun t ht1 ht2 => ?_))
      rw [lineColor, if_pos rfl, hc (w - 7 + t) i (Or.inr (Or.inl (by omega))),
        finderRegionColor, if_neg (by omega), if_pos (by omega),
        show w - 7 + t - (w - 4) = t - 3 from by ring]
    · refine scores_at_left (pattern_row (show -1 ≤ i - (w - 4) from by omega)
        (show i - (w - 4) ≤ 1 from by omega) (fun t ht1 ht2 => ?_))
      rw [lineColor, if_pos rfl, show (0:Int) + t = t from by ring,
        hc t i (Or.inr (Or.inr (by omega))), finderRegionColor, if_neg (by omega),
        if_neg (by omega)]
  · refine finderRaw_ge hw false (fun i h2 h4 => ?_) (fun i h2 h4 => ?_) (fun i h2 h4 => ?_)
    · refine scores_at_left (pattern_row (show -1 ≤ i - 3 from by omega)
        (show i - 3 ≤ 1 from by omega) (fun t ht1 ht2 => ?_))
      rw [lineColor, if_neg (by simp), show (0:Int) + t = t from by ring,
        hc i t (Or.inl (by omega)), finderRegionColor, if_pos (by omega),
        finderColor_symm]
    · refine scores_at_right hw (pattern_row (show -1 ≤ i - 3 from by omega)
        (show i - 3 ≤ 1 from by omega) (fun t ht1 ht2 => ?_))
      rw [lineColor, if_neg (by simp), hc i (w - 7 + t) (Or.inr (Or.inr (by omega))),
        finderRegionColor, if_neg (by omega), if_neg (by omega),
        show w - 7 + t - (w - 4) = t - 3 from by ring, finderColor_symm]
    · refine scores_at_left (pattern_row (show -1 ≤ i - (w - 4) from by omega)
        (show i - (w - 4) ≤ 1 from by omega) (fun t ht1 ht2 => ?_))
      rw [lineColor, if_neg (by simp), show (0:Int) + t = t from by ring,
        hc i t (Or.inr (Or.inl (by omega))), finderRegionColor, if_neg (by omega),
        if_pos (by omega), finderColor_symm]

theorem c10_finder_penalty_no_underflow_witness :
    ((21:Int) ≤ 21 ∧ ∀ x y, finderRegion 21 x y →
        (((drawFinderPatterns (Version.normal 1) 21 Canvas.empty).get 21 x y).color =
          finderRegionColor 21 x y)) ∧
    (360 ≤ computeFinderPenaltyRaw
        (drawFinderPatterns (Version.normal 1) 21 Canvas.empty) 21 true ∧
      360 ≤ computeFinderPenaltyRaw
        (drawFinderPatterns (Version.normal 1) 21 Canvas.empty) 21 false) :=
  ⟨⟨by norm_num, fun x y hr =>
      drawFinder_region_color 1 (by norm_num) Canvas.empty x y hr⟩,
    c10_finder_penalty_no_underflow 21 (by norm_num)
      (drawFinderPatterns (Version.normal 1) 21 Canvas.empty)
      (fun x y hr => drawFinder_region_color 1 (by norm_num) Canvas.empty x y hr)⟩


/-! ### C2: functional modules are masked -/

theorem foldl_preserves_masked {α : Type} (F : Canvas → α → Canvas) (w x y : Int)
    (L : List α)
    (hF : ∀ c a, a ∈ L → ((c.get w x y).isMasked) = true →
      (((F c a).get w x y).isMasked) = true) :
    ∀ c, ((c.get w x y).isMasked) = true → (((L.foldl F c).get w x y).isMasked) = true := by
  induction L with
  | nil => intro c h; exact h
  | cons a L ih =>
    intro c h
    rw [List.foldl_cons]
    exact ih (fun c2 b hb h2 => hF c2 b (List.mem_cons_of_mem a hb) h2) _
      (hF c a (List.mem_cons_self a L) h)

theorem foldl_get_preserved {α : Type} (F : Canvas → α → Canvas) (w zx zy : Int)
    (L : List α)
    (hF : ∀ c a, a ∈ L → ((F c a).get w zx zy) = c.get w zx zy) :
    ∀ c, (L.foldl F c).get w zx zy = c.get w zx zy := by
  induction L with
  | nil => intro c; rfl
  | cons a L ih =>
    intro c
    rw [List.foldl_cons, ih (fun c2 b hb => hF c2 b (List.mem_cons_of_mem a hb)),
      hF c a (List.mem_cons_self a L)]

theorem alignAt_masked_mono {c : Canvas} {w px py x y : Int}
    (h : ((c.get w x y).isMasked) = true) :
    (((drawAlignmentPatternAt c w px py).get w x y).isMasked) = true := by
  rw [drawAlignmentPatternAt]
  split_ifs with hm
  · exact h
  · exact isMasked_get_putList h

theorem alignInstr_mem (x0 y0 di dj : Int) (h1 : -2 ≤ di) (h2 : di ≤ 2)
    (h3 : -2 ≤ dj) (h4 : dj ≤ 2) :
    Instr.mk (x0 + di) (y0 + dj) (alignColor di dj) ∈ alignInstrs x0 y0 := by
  rw [alignInstrs]
  exact List.mem_flatMap.mpr ⟨dj, mem_intRange.mpr ⟨h3, h4⟩,
    List.mem_map.mpr ⟨di, mem_intRange.mpr ⟨h1, h2⟩, rfl⟩⟩

theorem alignAt_point_preserved {c : Canvas} {w px py zx zy : Int}
    (hpx1 : 4 ≤ px) (hpx2 : px ≤ w - 5) (hpy1 : 4 ≤ py) (hpy2 : py ≤ w - 5)
    (hz1 : 0 ≤ zx) (hz3 : 0 ≤ zy)
    (hfar : 2 < (px - zx).natAbs ∨ 2 < (py - zy).natAbs) :
    (drawAlignmentPatternAt c w px py).get w zx zy = c.get w zx zy := by
  rw [drawAlignmentPatternAt]
  split_ifs with hm
  · rfl
  · apply get_putList_not_hit
    intro i hi hhit
    obtain ⟨di, dj, h1, h2, h3, h4, hx, hy⟩ := mem_alignInstrs hi
    obtain ⟨hh1, hh2⟩ := hhit
    rw [hx, normc_of_nonneg (by omega), normc_of_nonneg hz1] at hh1
    rw [hy, normc_of_nonneg (by omega), normc_of_nonneg hz3] at hh2
    omega

theorem format_masked_mono {ver : Version} {w x y : Int} {c : Canvas}
    (h : ((c.get w x y).isMasked) = true) :
    (((drawReservedFormatInfoPatterns ver w c).get w x y).isMasked) = true := by
  rw [drawReservedFormatInfoPatterns, drawFormat_putList]
  exact isMasked_get_putList h

theorem timing_masked_mono {ver : Version} {w x y : Int} {c : Canvas}
    (h : ((c.get w x y).isMasked) = true) :
    (((drawTimingPatterns ver w c).get w x y).isMasked) = true := by
  cases ver <;> exact isMasked_get_putList (isMasked_get_putList h)

theorem version_masked_mono {ver : Version} {w x y : Int} {c : Canvas}
    (h : ((c.get w x y).isMasked) = true) :
    (((drawVersionInfoPatterns ver w c).get w x y).isMasked) = true := by
  cases ver with
  | micro a => exact h
  | normal a =>
    rw [drawVersionInfoPatterns]
    split_ifs with ha
    · exact h
    · exact isMasked_get_putList (isMasked_get_putList h)

theorem align_masked_mono {ver : Version} {w x y : Int} {c : Canvas}
    (h : ((c.get w x y).isMasked) = true) :
    (((drawAlignmentPatterns ver w c).get w x y).isMasked) = true := by
  cases ver with
  | micro a => exact h
  | normal a =>
    rw [drawAlignmentPatterns]
    split_ifs with ha hb
    · exact h
    · exact alignAt_masked_mono h
    · exact foldl_preserves_masked _ w x y _
        (fun c2 px _ h2 => foldl_preserves_masked _ w x y _
          (fun c3 py _ h3 => alignAt_masked_mono h3) c2 h2) c h

theorem drawNumberInstrs_mem {coords : List (Int × Int)} {xy : Int × Int}
    (h : xy ∈ coords) (n m : Nat) (onC offC : Color) :
    ∃ col, Instr.mk xy.1 xy.2 col ∈ drawNumberInstrs n m onC offC coords := by
  induction coords generalizing m with
  | nil => cases h
  | cons p rest ih =>
    obtain ⟨px, py⟩ := p
    rcases List.mem_cons.mp h with rfl | h2
    · exact ⟨_, List.mem_cons_self _ _⟩
    · obtain ⟨col, hc⟩ := ih h2 (m / 2)
      exact ⟨col, List.mem_cons_of_mem _ hc⟩

theorem drawFinder_masked_region {a w : Int} (hw : 21 ≤ w) (c : Canvas) {x y : Int}
    (hr : finderRegion w x y) :
    (((drawFinderPatterns (Version.normal a) w c).get w x y).isMasked) = true := by
  show ((((c.putList w (finderInstrs 3 3)).putList w (finderInstrs (-4) 3)).putList w
      (finderInstrs 3 (-4))).get w x y).isMasked = true
  rcases hr with ⟨e1, e2, e3, e4⟩ | ⟨e1, e2, e3, e4⟩ | ⟨e1, e2, e3, e4⟩
  · apply isMasked_get_putList
    apply isMasked_get_putList
    exact isMasked_get_putList_of_hit
      (finderInstr_mem 3 3 (x - 3) (y - 3) (by norm_num; omega) (by norm_num; omega)
        (by norm_num; omega) (by norm_num; omega))
      ⟨by rw [show (3:Int) + (x - 3) = x from by ring],
       by rw [show (3:Int) + (y - 3) = y from by ring]⟩
  · apply isMasked_get_putList
    exact isMasked_get_putList_of_hit
      (finderInstr_mem (-4) 3 (x - w + 4) (y - 3) (by norm_num; omega) (by norm_num; omega)
        (by norm_num; omega) (by norm_num; omega))
      ⟨by
        show normc w (-4 + (x - w + 4)) = normc w x
        rw [normc_of_neg (by omega), normc_of_nonneg (by omega)]
        ring,
       by rw [show (3:Int) + (y - 3) = y from by ring]⟩
  · exact isMasked_get_putList_of_hit
      (finderInstr_mem 3 (-4) (x - 3) (y - w + 4) (by norm_num; omega) (by norm_num; omega)
        (by norm_num; omega) (by norm_num; omega))
      ⟨by rw [show (3:Int) + (x - 3) = x from by ring],
       by
        show normc w (-4 + (y - w + 4)) = normc w y
        rw [normc_of_neg (by omega), normc_of_nonneg (by omega)]
        ring⟩

theorem finder_unmasked_pivot {w px py : Int} (hw : 45 ≤ w)
    (hpx : px = 6 ∨ (20 ≤ px ∧ px ≤ w - 11) ∨ px = w - 7)
    (hpy : py = 6 ∨ (20 ≤ py ∧ py ≤ w - 11) ∨ py = w - 7)
    (hne : ¬(px = 6 ∧ py = 6)) (hne2 : ¬(px = 6 ∧ py = w - 7))
    (hne3 : ¬(px = w - 7 ∧ py = 6)) :
    ∀ a : Int, (drawFinderPatterns (Version.normal a) w Canvas.empty).get w px py =
      Module.unmasked Color.light := by
  intro a
  have hbl : ∀ i ∈ finderInstrs 3 (-4), ¬ i.hits w px py := by
    intro i hi hhit
    obtain ⟨di, dj, h1, h2, h3, h4, he⟩ := mem_finderInstrs hi
    norm_num at h1 h2 h3 h4
    subst he
    obtain ⟨hh1, hh2⟩ := hhit
    simp only at hh1 hh2
    rw [normc_of_nonneg (by omega), normc_of_nonneg (by omega)] at hh1
    rw [normc_of_neg (by omega), normc_of_nonneg (by omega)] at hh2
    omega
  have htr : ∀ i ∈ finderInstrs (-4) 3, ¬ i.hits w px py := by
    intro i hi hhit
    obtain ⟨di, dj, h1, h2, h3, h4, he⟩ := mem_finderInstrs hi
    norm_num at h1 h2 h3 h4
    subst he
    obtain ⟨hh1, hh2⟩ := hhit
    simp only at hh1 hh2
    rw [normc_of_neg (by omega), normc_of_nonneg (by omega)] at hh1
    rw [normc_of_nonneg (by omega), normc_of_nonneg (by omega)] at hh2
    omega
  have htl : ∀ i ∈ finderInstrs 3 3, ¬ i.hits w px py := by
    intro i hi hhit
    obtain ⟨di, dj, h1, h2, h3, h4, he⟩ := mem_finderInstrs hi
    norm_num at h1 h2 h3 h4
    subst he
    obtain ⟨hh1, hh2⟩ := hhit
    simp only at hh1 hh2
    rw [normc_of_nonneg (by omega), normc_of_nonneg (by omega)] at hh1
    rw [normc_of_nonneg (by omega), normc_of_nonneg (by omega)] at hh2
    omega
  show ((((Canvas.empty.putList w (finderInstrs 3 3)).putList w
      (finderInstrs (-4) 3)).putList w (finderInstrs 3 (-4))).get w px py) = _
  rw [get_putList_not_hit hbl, get_putList_not_hit htr, get_putList_not_hit htl]
  rfl

theorem alignmentPositions_facts (a : Int) (h7 : 7 ≤ a) (h40 : a ≤ 40) :
    (∀ pr ∈ (alignmentPatternPositions.getD (a - 7).toNat []).enum,
        (pr.1 = 0 ↔ pr.2 = 6) ∧
        (pr.1 = (alignmentPatternPositions.getD (a - 7).toNat []).length - 1 ↔
          pr.2 = 4 * a + 10) ∧
        pr.2 ∈ alignmentPatternPositions.getD (a - 7).toNat []) ∧
    (∀ p ∈ alignmentPatternPositions.getD (a - 7).toNat [],
      ∀ q ∈ alignmentPatternPositions.getD (a - 7).toNat [],
        p ≠ q → 16 ≤ (p - q).natAbs) ∧
    (alignmentPatternPositions.getD (a - 7).toNat []).Nodup := by
  have ha : a = 7 ∨ a = 8 ∨ a = 9 ∨ a = 10 ∨ a = 11 ∨ a = 12 ∨ a = 13 ∨ a = 14 ∨ a = 15 ∨ a = 16 ∨ a = 17 ∨ a = 18 ∨ a = 19 ∨ a = 20 ∨ a = 21 ∨ a = 22 ∨ a = 23 ∨ a = 24 ∨ a = 25 ∨ a = 26 ∨ a = 27 ∨ a = 28 ∨ a = 29 ∨ a = 30 ∨ a = 31 ∨ a = 32 ∨ a = 33 ∨ a = 34 ∨ a = 35 ∨ a = 36 ∨ a = 37 ∨ a = 38 ∨ a = 39 ∨ a = 40 := by omega
  rcases ha with rfl | rfl | rfl | rfl | rfl | rfl | rfl | rfl | rfl | rfl | rfl | rfl | rfl | rfl | rfl | rfl | rfl | rfl | rfl | rfl | rfl | rfl | rfl | rfl | rfl | rfl | rfl | rfl | rfl | rfl | rfl | rfl | rfl | rfl <;> exact ⟨by decide, by decide, by decide⟩


theorem alignFold_box_masked {w : Int} (hw : 45 ≤ w) (ps : List Int)
    (hps : ∀ p ∈ ps, p = 6 ∨ (20 ≤ p ∧ p ≤ w - 11) ∨ p = w - 7)
    (hsep : ∀ p ∈ ps, ∀ q ∈ ps, p ≠ q → 16 ≤ (p - q).natAbs)
    (hnd : ps.Nodup)
    {px py : Int} (hpx : px ∈ ps) (hpy : py ∈ ps)
    (c0 : Canvas) (hc0 : c0.get w px py = Module.unmasked Color.light)
    {x y : Int} (hbx : (px - x).natAbs ≤ 2) (hby : (py - y).natAbs ≤ 2) :
    (((ps.foldl (fun c px2 => ps.foldl (fun c py2 => drawAlignmentPatternAt c w px2 py2) c)
        c0).get w x y).isMasked) = true := by
  have hbnd : ∀ p ∈ ps, 4 ≤ p ∧ p ≤ w - 5 := by
    intro p hp
    rcases hps p hp with h | h | h <;> omega
  have hpxb := hbnd px hpx
  have hpyb := hbnd py hpy
  obtain ⟨o1, o2, ho⟩ := List.append_of_mem hpx
  obtain ⟨i1, i2, hi⟩ := List.append_of_mem hpy
  have hndo : (o1 ++ px :: o2).Nodup := ho ▸ hnd
  have hndi : (i1 ++ py :: i2).Nodup := hi ▸ hnd
  have hpxo1 : px ∉ o1 := fun hin =>
    (List.nodup_append.mp hndo).2.2 hin (List.mem_cons_self px o2)
  have hpyi1 : py ∉ i1 := fun hin =>
    (List.nodup_append.mp hndi).2.2 hin (List.mem_cons_self py i2)
  rw [show ps.foldl (fun c px2 => ps.foldl
        (fun c py2 => drawAlignmentPatternAt c w px2 py2) c) c0 =
      ((o1 ++ px :: o2).foldl (fun c px2 => ps.foldl
        (fun c py2 => drawAlignmentPatternAt c w px2 py2) c) c0) from by rw [← ho],
    List.foldl_append, List.foldl_cons]
  apply foldl_preserves_masked _ w x y o2 (fun c2 b _ h2 =>
    foldl_preserves_masked _ w x y ps (fun c3 b2 _ h3 => alignAt_masked_mono h3) c2 h2)
  -- the canvas when the pivot column is processed
  have hpres1 : (o1.foldl (fun c px2 => ps.foldl
      (fun c py2 => drawAlignmentPatternAt c w px2 py2) c) c0).get w px py =
      c0.get w px py := by
    apply foldl_get_preserved
    intro c px2 hmem
    apply foldl_get_preserved
    intro c2 py2 hmem2
    have hpx2 : px2 ∈ ps := by rw [ho]; exact List.mem_append_left _ hmem
    have hne : px2 ≠ px := fun he => hpxo1 (he ▸ hmem)
    exact alignAt_point_preserved (hbnd px2 hpx2).1 (hbnd px2 hpx2).2
      (hbnd py2 hmem2).1 (hbnd py2 hmem2).2 (by omega) (by omega)
      (Or.inl (by have := hsep px2 hpx2 px hpx hne; omega))
  rw [show ps.foldl (fun c py2 => drawAlignmentPatternAt c w px py2)
        (o1.foldl (fun c px2 => ps.foldl
          (fun c py2 => drawAlignmentPatternAt c w px2 py2) c) c0) =
      (i1 ++ py :: i2).foldl (fun c py2 => drawAlignmentPatternAt c w px py2)
        (o1.foldl (fun c px2 => ps.foldl
          (fun c py2 => drawAlignmentPatternAt c w px2 py2) c) c0) from by rw [← hi],
    List.foldl_append, List.foldl_cons]
  apply foldl_preserves_masked _ w x y i2 (fun c2 b _ h2 => alignAt_masked_mono h2)
  have hpres2 : (i1.foldl (fun c py2 => drawAlignmentPatternAt c w px py2)
      (o1.foldl (fun c px2 => ps.foldl
        (fun c py2 => drawAlignmentPatternAt c w px2 py2) c) c0)).get w px py =
      c0.get w px py := by
    rw [← hpres1]
    apply foldl_get_preserved
    intro c py2 hmem2
    have hpy2 : py2 ∈ ps := by rw [hi]; exact List.mem_append_left _ hmem2
    have hne : py2 ≠ py := fun he => hpyi1 (he ▸ hmem2)
    exact alignAt_point_preserved hpxb.1 hpxb.2 (hbnd py2 hpy2).1 (hbnd py2 hpy2).2
      (by omega) (by omega) (Or.inr (by have := hsep py2 hpy2 py hpy hne; omega))
  rw [drawAlignmentPatternAt, hpres2, hc0]
  rw [if_neg (by decide)]
  exact isMasked_get_putList_of_hit
    (alignInstr_mem px py (x - px) (y - py) (by omega) (by omega) (by omega) (by omega))
    ⟨by rw [show px + (x - px) = x from by ring],
     by rw [show py + (y - py) = y from by ring]⟩

theorem align_small_masked {w : Int} (hw : 25 ≤ w) (hw41 : w ≤ 41) (a : Int) {x y : Int}
    (hbx : (w - 7 - x).natAbs ≤ 2) (hby : (w - 7 - y).natAbs ≤ 2) :
    (((drawAlignmentPatternAt (drawFinderPatterns (Version.normal a) w Canvas.empty) w
        (-7) (-7)).get w x y).isMasked) = true := by
  have hget : (drawFinderPatterns (Version.normal a) w Canvas.empty).get w (-7) (-7) =
      Module.unmasked Color.light := by
    have hbl : ∀ i ∈ finderInstrs 3 (-4), ¬ i.hits w (-7) (-7) := by
      intro i hi hhit
      obtain ⟨di, dj, h1, h2, h3, h4, he⟩ := mem_finderInstrs hi
      norm_num at h1 h2 h3 h4
      subst he
      obtain ⟨hh1, hh2⟩ := hhit
      simp only at hh1 hh2
      rw [normc_of_nonneg (by omega), normc_of_neg (by norm_num)] at hh1
      omega
    have htr : ∀ i ∈ finderInstrs (-4) 3, ¬ i.hits w (-7) (-7) := by
      intro i hi hhit
      obtain ⟨di, dj, h1, h2, h3, h4, he⟩ := mem_finderInstrs hi
      norm_num at h1 h2 h3 h4
      subst he
      obtain ⟨hh1, hh2⟩ := hhit
      simp only at hh1 hh2
      rw [normc_of_nonneg (by omega), normc_of_neg (by norm_num)] at hh2
      omega
    have htl : ∀ i ∈ finderInstrs 3 3, ¬ i.hits w (-7) (-7) := by
      intro i hi hhit
      obtain ⟨di, dj, h1, h2, h3, h4, he⟩ := mem_finderInstrs hi
      norm_num at h1 h2 h3 h4
      subst he
      obtain ⟨hh1, hh2⟩ := hhit
      simp only at hh1 hh2
      rw [normc_of_nonneg (by omega), normc_of_neg (by norm_num)] at hh1
      omega
    show ((((Canvas.empty.putList w (finderInstrs 3 3)).putList w
        (finderInstrs (-4) 3)).putList w (finderInstrs 3 (-4))).get w (-7) (-7)) = _
    rw [get_putList_not_hit hbl, get_putList_not_hit htr, get_putList_not_hit htl]
    rfl
  rw [drawAlignmentPatternAt, hget]
  rw [if_neg (by decide)]
  exact isMasked_get_putList_of_hit
    (alignInstr_mem (-7) (-7) (x - w + 7) (y - w + 7) (by omega) (by omega) (by omega)
      (by omega))
    ⟨by
      show normc w (-7 + (x - w + 7)) = normc w x
      rw [show (-7:Int) + (x - w + 7) = x - w from by ring, normc_of_neg (by omega),
        normc_of_nonneg (by omega)]
      ring,
     by
      show normc w (-7 + (y - w + 7)) = normc w y
      rw [show (-7:Int) + (y - w + 7) = y - w from by ring, normc_of_neg (by omega),
        normc_of_nonneg (by omega)]
      ring⟩

theorem timing_masked_v {a w y : Int} (c : Canvas) (hw : 21 ≤ w) (h8 : 8 ≤ y)
    (h9 : y ≤ w - 9) :
    (((drawTimingPatterns (Version.normal a) w c).get w 6 y).isMasked) = true := by
  show (((c.putList w (lineInstrs 8 6 (w - 9) 6 Color.dark Color.light)).putList w
      (lineInstrs 6 8 6 (w - 9) Color.dark Color.light)).get w 6 y).isMasked = true
  have hmem : Instr.mk 6 y (if y.tmod 2 = 0 then Color.dark else Color.light) ∈
      lineInstrs 6 8 6 (w - 9) Color.dark Color.light := by
    rw [lineInstrs, if_neg (by omega)]
    exact List.mem_map.mpr ⟨y, mem_intRange.mpr ⟨h8, h9⟩, rfl⟩
  exact isMasked_get_putList_of_hit hmem ⟨rfl, rfl⟩

theorem timing_masked_h {a w x : Int} (c : Canvas) (hw : 21 ≤ w) (h8 : 8 ≤ x)
    (h9 : x ≤ w - 9) :
    (((drawTimingPatterns (Version.normal a) w c).get w x 6).isMasked) = true := by
  show (((c.putList w (lineInstrs 8 6 (w - 9) 6 Color.dark Color.light)).putList w
      (lineInstrs 6 8 6 (w - 9) Color.dark Color.light)).get w x 6).isMasked = true
  apply isMasked_get_putList
  have hmem : Instr.mk x 6 (if x.tmod 2 = 0 then Color.dark else Color.light) ∈
      lineInstrs 8 6 (w - 9) 6 Color.dark Color.light := by
    rw [lineInstrs, if_pos rfl]
    exact List.mem_map.mpr ⟨x, mem_intRange.mpr ⟨h8, h9⟩, rfl⟩
  exact isMasked_get_putList_of_hit hmem ⟨rfl, rfl⟩

theorem format_masked_of_hit {a w x y : Int} {c : Canvas} {i : Instr}
    (hm : i ∈ fiInstrs (Version.normal a) 0) (hh : i.hits w x y) :
    (((drawReservedFormatInfoPatterns (Version.normal a) w c).get w x y).isMasked) = true := by
  rw [drawReservedFormatInfoPatterns, drawFormat_putList]
  exact isMasked_get_putList_of_hit hm hh

theorem format_main_masked {a w x y : Int} {c : Canvas}
    (hmem : ((x, y) : Int × Int) ∈ formatInfoCoordsQrMain) :
    (((drawReservedFormatInfoPatterns (Version.normal a) w c).get w x y).isMasked) = true := by
  obtain ⟨col, hc2⟩ := drawNumberInstrs_mem hmem 0 16384 Color.dark Color.light
  exact format_masked_of_hit (List.mem_append.mpr (Or.inl hc2)) ⟨rfl, rfl⟩

theorem format_side_masked {a w x y cx cy : Int} {c : Canvas}
    (hmem : ((cx, cy) : Int × Int) ∈ formatInfoCoordsQrSide)
    (h1 : normc w cx = normc w x) (h2 : normc w cy = normc w y) :
    (((drawReservedFormatInfoPatterns (Version.normal a) w c).get w x y).isMasked) = true := by
  obtain ⟨col, hc2⟩ := drawNumberInstrs_mem hmem 0 16384 Color.dark Color.light
  exact format_masked_of_hit
    (List.mem_append.mpr (Or.inr (List.mem_append.mpr (Or.inl hc2)))) ⟨h1, h2⟩

theorem format_dark_masked {a w x y : Int} {c : Canvas}
    (h1 : normc w 8 = normc w x) (h2 : normc w (-8) = normc w y) :
    (((drawReservedFormatInfoPatterns (Version.normal a) w c).get w x y).isMasked) = true :=
  format_masked_of_hit
    (List.mem_append.mpr (Or.inr (List.mem_append.mpr (Or.inr
      (List.mem_singleton.mpr rfl))))) ⟨h1, h2⟩


/-- C2: every functional module of a Normal version is Masked on the
canvas produced by `draw_all_functional_patterns` on a fresh canvas, and
on any canvas produced by `apply_mask` (hence on the final canvas) every
in-range module is Masked. -/
theorem c2_functional_masked (a : Int) (h1 : 1 ≤ a) (h40 : a ≤ 40) (x y : Int)
    (hx1 : 0 ≤ x) (hx2 : x < 4 * a + 17) (hy1 : 0 ≤ y) (hy2 : y < 4 * a + 17)
    (hf : isFunctional (Version.normal a) (4 * a + 17) x y = true) :
    (((drawAllFunctionalPatterns (Version.normal a) (4 * a + 17) Canvas.empty).get
        (4 * a + 17) x y).isMasked) = true ∧
    ∀ (c : Canvas) (ec : EcLevel) (p : MaskPattern) (c2 : Canvas),
      applyMask (Version.normal a) (4 * a + 17) ec p c = some c2 →
      ((c2.get (4 * a + 17) x y).isMasked) = true := by
  have hw21 : (21:Int) ≤ 4 * a + 17 := by omega
  refine ⟨?_, ?_⟩
  case refine_2 =>
    intro c ec p c2 hm
    unfold applyMask drawFormatInfoPatterns at hm
    obtain ⟨fi, hfi, hc2⟩ := Option.map_eq_some'.mp hm
    subst hc2
    rw [drawFormat_putList]
    apply isMasked_get_putList
    rw [applyMaskLoop_get hx1 hx2 hy1 hy2]
    rfl
  simp only [isFunctional] at hf
  rw [if_neg (not_lt.mpr hx1), if_neg (not_lt.mpr hy1)] at hf
  rw [drawAllFunctionalPatterns]
  apply version_masked_mono
  split_ifs at hf with hc1 ha1 ha26
  · rcases hc1 with h6 | h6 | ⟨h9x, h9y⟩ | ⟨h9x, hby⟩ | ⟨hbx, h9y⟩
    · subst h6
      by_cases hy7 : y ≤ 7
      · exact timing_masked_mono (format_masked_mono (align_masked_mono
          (drawFinder_masked_region hw21 _ (Or.inl (by omega)))))
      · by_cases hyb : 4 * a + 17 - 8 ≤ y
        · exact timing_masked_mono (format_masked_mono (align_masked_mono
            (drawFinder_masked_region hw21 _ (Or.inr (Or.inr (by omega))))))
        · exact timing_masked_v _ hw21 (by omega) (by omega)
    · subst h6
      by_cases hx7 : x ≤ 7
      · exact timing_masked_mono (format_masked_mono (align_masked_mono
          (drawFinder_masked_region hw21 _ (Or.inl (by omega)))))
      · by_cases hxb : 4 * a + 17 - 8 ≤ x
        · exact timing_masked_mono (format_masked_mono (align_masked_mono
            (drawFinder_masked_region hw21 _ (Or.inr (Or.inl (by omega))))))
        · exact timing_masked_h _ hw21 (by omega) (by omega)
    · by_cases hb : x ≤ 7 ∧ y ≤ 7
      · exact timing_masked_mono (format_masked_mono (align_masked_mono
          (drawFinder_masked_region hw21 _ (Or.inl (by omega)))))
      · have h8 : x = 8 ∨ y = 8 := by omega
        rcases h8 with h8 | h8
        · subst h8
          rcases show y = 6 ∨ (y = 0 ∨ y = 1 ∨ y = 2 ∨ y = 3 ∨ y = 4 ∨ y = 5 ∨ y = 7 ∨
              y = 8) from by omega with rfl | hv
          · exact timing_masked_h _ hw21 (by omega) (by omega)
          · apply timing_masked_mono
            rcases hv with rfl | rfl | rfl | rfl | rfl | rfl | rfl | rfl <;>
              exact format_main_masked (by decide)
        · subst h8
          rcases show x = 6 ∨ (x = 0 ∨ x = 1 ∨ x = 2 ∨ x = 3 ∨ x = 4 ∨ x = 5 ∨ x = 7 ∨
              x = 8) from by omega with rfl | hv
          · exact timing_masked_v _ hw21 (by omega) (by omega)
          · apply timing_masked_mono
            rcases hv with rfl | rfl | rfl | rfl | rfl | rfl | rfl | rfl <;>
              exact format_main_masked (by decide)
    · by_cases hx7 : x ≤ 7
      · exact timing_masked_mono (format_masked_mono (align_masked_mono
          (drawFinder_masked_region hw21 _ (Or.inr (Or.inr (by omega))))))
      · have hx8 : x = 8 := by omega
        subst hx8
        apply timing_masked_mono
        rcases show y - (4 * a + 17) = -8 ∨ y - (4 * a + 17) = -7 ∨
            y - (4 * a + 17) = -6 ∨ y - (4 * a + 17) = -5 ∨ y - (4 * a + 17) = -4 ∨
            y - (4 * a + 17) = -3 ∨ y - (4 * a + 17) = -2 ∨ y - (4 * a + 17) = -1
            from by omega with hk | hk | hk | hk | hk | hk | hk | hk
        · exact format_dark_masked rfl
            (by rw [normc_of_neg (by norm_num), normc_of_nonneg (by omega)]; omega)
        · exact format_side_masked
            (show ((8:Int), (-7:Int)) ∈ formatInfoCoordsQrSide from by decide) rfl
            (by rw [normc_of_neg (by norm_num), normc_of_nonneg (by omega)]; omega)
        · exact format_side_masked
            (show ((8:Int), (-6:Int)) ∈ formatInfoCoordsQrSide from by decide) rfl
            (by rw [normc_of_neg (by norm_num), normc_of_nonneg (by omega)]; omega)
        · exact format_side_masked
            (show ((8:Int), (-5:Int)) ∈ formatInfoCoordsQrSide from by decide) rfl
            (by rw [normc_of_neg (by norm_num), normc_of_nonneg (by omega)]; omega)
        · exact format_side_masked
            (show ((8:Int), (-4:Int)) ∈ formatInfoCoordsQrSide from by decide) rfl
            (by rw [normc_of_neg (by norm_num), normc_of_nonneg (by omega)]; omega)
        · exact format_side_masked
            (show ((8:Int), (-3:Int)) ∈ formatInfoCoordsQrSide from by decide) rfl
            (by rw [normc_of_neg (by norm_num), normc_of_nonneg (by omega)]; omega)
        · exact format_side_masked
            (show ((8:Int), (-2:Int)) ∈ formatInfoCoordsQrSide from by decide) rfl
            (by rw [normc_of_neg (by norm_num), normc_of_nonneg (by omega)]; omega)
        · exact format_side_masked
            (show ((8:Int), (-1:Int)) ∈ formatInfoCoordsQrSide from by decide) rfl
            (by rw [normc_of_neg (by norm_num), normc_of_nonneg (by omega)]; omega)
    · by_cases hy7 : y ≤ 7
      · exact timing_masked_mono (format_masked_mono (align_masked_mono
          (drawFinder_masked_region hw21 _ (Or.inr (Or.inl (by omega))))))
      · have hy8 : y = 8 := by omega
        subst hy8
        apply timing_masked_mono
        rcases show x - (4 * a + 17) = -8 ∨ x - (4 * a + 17) = -7 ∨
            x - (4 * a + 17) = -6 ∨ x - (4 * a + 17) = -5 ∨ x - (4 * a + 17) = -4 ∨
            x - (4 * a + 17) = -3 ∨ x - (4 * a + 17) = -2 ∨ x - (4 * a + 17) = -1
            from by omega with hk | hk | hk | hk | hk | hk | hk | hk
        · exact format_side_masked
            (show ((-8:Int), (8:Int)) ∈ formatInfoCoordsQrSide from by decide)
            (by rw [normc_of_neg (by norm_num), normc_of_nonneg hx1]; omega) rfl
        · exact format_side_masked
            (show ((-7:Int), (8:Int)) ∈ formatInfoCoordsQrSide from by decide)
            (by rw [normc_of_neg (by norm_num), normc_of_nonneg hx1]; omega) rfl
        · exact format_side_masked
            (show ((-6:Int), (8:Int)) ∈ formatInfoCoordsQrSide from by decide)
            (by rw [normc_of_neg (by norm_num), normc_of_nonneg hx1]; omega) rfl
        · exact format_side_masked
            (show ((-5:Int), (8:Int)) ∈ formatInfoCoordsQrSide from by decide)
            (by rw [normc_of_neg (by norm_num), normc_of_nonneg hx1]; omega) rfl
        · exact format_side_masked
            (show ((-4:Int), (8:Int)) ∈ formatInfoCoordsQrSide from by decide)
            (by rw [normc_of_neg (by norm_num), normc_of_nonneg hx1]; omega) rfl
        · exact format_side_masked
            (show ((-3:Int), (8:Int)) ∈ formatInfoCoordsQrSide from by decide)
            (by rw [normc_of_neg (by norm_num), normc_of_nonneg hx1]; omega) rfl
        · exact format_side_masked
            (show ((-2:Int), (8:Int)) ∈ formatInfoCoordsQrSide from by decide)
            (by rw [normc_of_neg (by norm_num), normc_of_nonneg hx1]; omega) rfl
        · exact format_side_masked
            (show ((-1:Int), (8:Int)) ∈ formatInfoCoordsQrSide from by decide)
            (by rw [normc_of_neg (by norm_num), normc_of_nonneg hx1]; omega) rfl
  · rw [decide_eq_true_eq] at hf
    apply timing_masked_mono
    apply format_masked_mono
    simp only [drawAlignmentPatterns]
    rw [if_neg ha1, if_pos ha26]
    exact align_small_masked (by omega) (by omega) a hf.1 hf.2
  · have h7 : 7 ≤ a := by omega
    obtain ⟨hidx, hsep, hnd⟩ := alignmentPositions_facts a h7 h40
    rw [List.any_eq_true] at hf
    obtain ⟨p, hp, hf2⟩ := hf
    rw [List.any_eq_true] at hf2
    obtain ⟨q, hq, hf3⟩ := hf2
    obtain ⟨hp0, hpl, hpmem⟩ := hidx p hp
    obtain ⟨hq0, hql, hqmem⟩ := hidx q hq
    split_ifs at hf3 with hexcl
    rw [decide_eq_true_eq] at hf3
    apply timing_masked_mono
    apply format_masked_mono
    simp only [drawAlignmentPatterns]
    rw [if_neg (by omega), if_neg (by omega)]
    refine alignFold_box_masked (by omega) _ ?_ hsep hnd hpmem hqmem _
      (finder_unmasked_pivot (by omega) ?_ ?_ ?_ ?_ ?_ a) hf3.1 hf3.2
    · intro r hr
      rcases alignmentPositions_cases a h7 h40 r hr with h | h | h
      · exact Or.inl h
      · exact Or.inr (Or.inl ⟨h.1, by omega⟩)
      · exact Or.inr (Or.inr (by omega))
    · rcases alignmentPositions_cases a h7 h40 p.2 hpmem with h | h | h
      · exact Or.inl h
      · exact Or.inr (Or.inl ⟨h.1, by omega⟩)
      · exact Or.inr (Or.inr (by omega))
    · rcases alignmentPositions_cases a h7 h40 q.2 hqmem with h | h | h
      · exact Or.inl h
      · exact Or.inr (Or.inl ⟨h.1, by omega⟩)
      · exact Or.inr (Or.inr (by omega))
    · rintro ⟨e1, e2⟩
      exact hexcl (Or.inl ⟨hp0.mpr e1, Or.inl (hq0.mpr e2)⟩)
    · rintro ⟨e1, e2⟩
      exact hexcl (Or.inl ⟨hp0.mpr e1, Or.inr (hql.mpr (by omega))⟩)
    · rintro ⟨e1, e2⟩
      exact hexcl (Or.inr ⟨hpl.mpr (by omega), hq0.mpr e2⟩)

theorem c2_functional_masked_witness :
    ((1:Int) ≤ 1 ∧ (1:Int) ≤ 40 ∧ (0:Int) ≤ 0 ∧ (0:Int) < 4 * 1 + 17 ∧
      isFunctional (Version.normal 1) (4 * 1 + 17) 0 0 = true) ∧
    ((((drawAllFunctionalPatterns (Version.normal 1) (4 * 1 + 17) Canvas.empty).get
        (4 * 1 + 17) 0 0).isMasked) = true ∧
      ∀ (c : Canvas) (ec : EcLevel) (p : MaskPattern) (c2 : Canvas),
        applyMask (Version.normal 1) (4 * 1 + 17) ec p c = some c2 →
        ((c2.get (4 * 1 + 17) 0 0).isMasked) = true) :=
  ⟨⟨by norm_num, by norm_num, by norm_num, by norm_num, by decide⟩,
    c2_functional_masked 1 (by norm_num) (by norm_num) 0 0 (by norm_num) (by norm_num)
      (by norm_num) (by norm_num) (by decide)⟩

end QR